import Mathlib

/-!
Verification of the go-ecies repository (Elliptic Curve Integrated
Encryption Scheme) against its natural-language specification.

The Go sources are shallowly embedded as follows.

Byte strings are lists of naturals (each byte a value below 256 where it
matters); the stateful io.Reader randomness source is a list of bytes that
is consumed from the front; Go functions returning (value, error) become
functions into Except GoError; Go runtime panics (out-of-range slices,
big.Int.FillBytes overflow, nil-curve dereference) are modelled by
distinguished error constructors so that partiality is explicit.

External collaborators (the elliptic-curve library, the hash, the AES/CTR
cipher, the ASN.1 and PEM codecs) are out of scope for the specification
(spec section 1) and are consumed through their interface contracts
(spec section 6).  They are modelled as function-valued parameters:
a Curve structure bundles ScalarMult, Marshal, Unmarshal, IsOnCurve,
BitSize and key generation; a HashFn is a digest function with its Size
and BlockSize; a cipher is a key-indexed keystream generator (CTR mode is
exactly "XOR a keystream determined by key and IV"); the ASN.1/PEM codec
is a pair of encode/decode functions.  Theorems assume of these parameters
only what the documented library contracts guarantee, and the concrete
witness instantiations discharge every such assumption.

The repository file params.go (ParamsFromCurve and the ASN.1 parameter
conversions) is not present under src/; those functions are modelled from
the spec and are marked as such in their doc comments.
-/

namespace ECIES

/-- Error values of the package, together with constructors that model Go
runtime panics (sliceOutOfRange for an out-of-range slice in concatKDF,
symOutOfRange for the out-of-range IV slice in symDecrypt, bufferTooSmall
for big.Int.FillBytes overflow, nilCurve for dereferencing a nil curve,
randReadError for a failing randomness source). -/
inductive GoError where
  | ErrImport
  | ErrInvalidCurve
  | ErrInvalidParams
  | ErrInvalidPublicKey
  | ErrSharedKeyIsPointAtInfinity
  | ErrSharedKeyTooBig
  | ErrKeyDataTooLong
  | ErrSharedTooLong
  | ErrInvalidMessage
  | ErrUnsupportedECIESParameters
  | ErrInvalidPrivateKey
  | sliceOutOfRange
  | symOutOfRange
  | bufferTooSmall
  | nilCurve
  | randReadError
  | cipherError
  deriving DecidableEq, Repr

/-- Decidable equality of results, so that concrete runs can be settled
by evaluation. -/
instance exceptDecEq {e a : Type} [DecidableEq e] [DecidableEq a] :
    DecidableEq (Except e a) := fun x y =>
  match x, y with
  | .ok u, .ok v =>
    if h : u = v then .isTrue (by rw [h])
    else .isFalse (by intro hc; injection hc; contradiction)
  | .error u, .error v =>
    if h : u = v then .isTrue (by rw [h])
    else .isFalse (by intro hc; injection hc; contradiction)
  | .ok _, .error _ => .isFalse (by intro hc; injection hc)
  | .error _, .ok _ => .isFalse (by intro hc; injection hc)

/-- Functional model of a Go hash.Hash factory: writing a sequence of byte
strings and calling Sum computes digest of their concatenation; Size and
BlockSize are the corresponding methods. -/
structure HashFn where
  digest : List Nat → List Nat
  Size : Nat
  BlockSize : Nat

/-- ECIESParams from the data model (spec section 3): a hash, a block
cipher factory, the cipher block size (IV length) and the symmetric key
length.  The cipher factory is modelled at the CTR-mode interface: on a
key it yields the keystream generator (iv, n) goes to the first n
keystream bytes, or an error (as aes.NewCipher does on a bad key size). -/
structure ECIESParams where
  Hash : HashFn
  Cipher : List Nat → Except GoError (List Nat → Nat → List Nat)
  BlockSize : Nat
  KeyLen : Nat

/-- Interface contract of the external elliptic-curve library
(spec section 6).  id models Go interface identity of the curve singleton;
GenKey models elliptic.GenerateKey consuming the randomness stream and
returning the scalar (as the value of the big.Int built from the returned
bytes) with the matching public point and the remaining stream. -/
structure Curve where
  id : Nat
  BitSize : Nat
  ScalarMult : Nat → Nat → Nat → Option (Nat × Nat)
  Marshal : Nat → Nat → List Nat
  Unmarshal : List Nat → Option (Nat × Nat)
  IsOnCurve : Nat → Nat → Bool
  GenKey : List Nat → Except GoError ((Nat × Nat × Nat) × List Nat)
  defaultParams : Option ECIESParams

/-- PublicKey of ecies.go: affine point, curve, optional bound params. -/
structure PublicKey where
  X : Nat
  Y : Nat
  Curve : Curve
  Params : Option ECIESParams

/-- PrivateKey of ecies.go: an embedded PublicKey plus the scalar D
(the value of the big.Int). -/
structure PrivateKey where
  PublicKey : PublicKey
  D : Nat

/-- Modelled from the spec: ParamsFromCurve (params.go, absent from src/)
maps a named curve to its default ECIES parameters, or none for an
unsupported curve (spec sections 3 and 4.1); on the abstract curve
interface this is the curve's default-parameter slot. -/
def ParamsFromCurve (curve : Curve) : Option ECIESParams :=
  curve.defaultParams

/-- Big-endian value of a byte string, as big.Int.SetBytes computes it. -/
def bytesToNat (l : List Nat) : Nat :=
  l.foldl (fun a b => a * 256 + b) 0

/-- Minimal big-endian byte representation of a natural, as
big.Int.Bytes returns it (empty for zero). -/
def natToBytes (n : Nat) : List Nat :=
  if h : n = 0 then [] else natToBytes (n / 256) ++ [n % 256]
  decreasing_by exact Nat.div_lt_self (Nat.pos_of_ne_zero h) (by omega)

/-- Big-endian representation of x in exactly len bytes, as
big.Int.FillBytes produces (left-padded with zeros). -/
def fillBytes (x len : Nat) : List Nat :=
  (List.range len).map (fun i => x / 256 ^ (len - 1 - i) % 256)

/-- GenerateKey of ecies.go lines 76-91: draw a key pair from the curve
library, bind the given params or the curve default (possibly none). -/
def GenerateKey (rand : List Nat) (curve : Curve) (params : Option ECIESParams) :
    Except GoError (PrivateKey × List Nat) :=
  match curve.GenKey rand with
  | .error e => .error e
  | .ok ((d, x, y), rand') =>
    .ok ({ PublicKey := { X := x, Y := y, Curve := curve,
                          Params := match params with
                                    | some p => some p
                                    | none => ParamsFromCurve curve },
           D := d }, rand')

/-- GenerateShared of ecies.go lines 98-109: ECDH key agreement; the
x-coordinate of D times the peer point, left-padded to exactly
ceil(BitSize/8) bytes via FillBytes (which panics when the value does not
fit, modelled by bufferTooSmall). -/
def GenerateShared (prv : PrivateKey) (pub : PublicKey) : Except GoError (List Nat) :=
  if prv.PublicKey.Curve.id ≠ pub.Curve.id then .error .ErrInvalidCurve
  else
    match pub.Curve.ScalarMult pub.X pub.Y prv.D with
    | none => .error .ErrSharedKeyIsPointAtInfinity
    | some (x, _) =>
      if 256 ^ ((pub.Curve.BitSize + 7) / 8) ≤ x then .error .bufferTooSmall
      else .ok (fillBytes x ((pub.Curve.BitSize + 7) / 8))

/-- incCounter of ecies.go lines 122-132: big-endian increment of the
4-byte counter with byte wrap-around. -/
def incCounter (ctr : List Nat) : List Nat :=
  match ctr with
  | [c0, c1, c2, c3] =>
    if (c3 + 1) % 256 ≠ 0 then [c0, c1, c2, (c3 + 1) % 256]
    else if (c2 + 1) % 256 ≠ 0 then [c0, c1, (c2 + 1) % 256, 0]
    else if (c1 + 1) % 256 ≠ 0 then [c0, (c1 + 1) % 256, 0, 0]
    else [(c0 + 1) % 256, 0, 0, 0]
  | other => other

/-- The loop body of concatKDF (ecies.go lines 149-156): n rounds, each
appending digest(counter, Z, S1) and incrementing the counter. -/
def kdfRounds (h : HashFn) (z s1 : List Nat) : Nat → List Nat → List Nat
  | 0, _ => []
  | n + 1, ctr => h.digest (ctr ++ z ++ s1) ++ kdfRounds h z s1 n (incCounter ctr)

/-- concatKDF of ecies.go lines 135-160: NIST concatenation KDF.  The
repetition bound check mirrors the big2To32M1 comparison; the final
k[:kdLen] slice is out of range when the loop produced fewer than kdLen
bytes (a Go panic, modelled by sliceOutOfRange). -/
def concatKDF (h : HashFn) (z s1 : List Nat) (kdLen : Nat) : Except GoError (List Nat) :=
  if 2 ^ 32 - 1 < ((kdLen + 7) * 8) / (h.BlockSize * 8) then .error .ErrKeyDataTooLong
  else
    if (kdfRounds h z s1 (((kdLen + 7) * 8) / (h.BlockSize * 8) + 1) [0, 0, 0, 1]).length < kdLen
    then .error .sliceOutOfRange
    else .ok ((kdfRounds h z s1 (((kdLen + 7) * 8) / (h.BlockSize * 8) + 1) [0, 0, 0, 1]).take kdLen)

/-- Key preprocessing of crypto/hmac (external collaborator): a key longer
than the hash block is replaced by its digest, then right-padded with
zeros to the block size. -/
def hmacKeyPad (h : HashFn) (key : List Nat) : List Nat :=
  (if h.BlockSize < key.length then h.digest key else key) ++
    List.replicate (h.BlockSize - (if h.BlockSize < key.length then h.digest key else key).length) 0

/-- The HMAC construction of crypto/hmac (external collaborator):
digest(key XOR opad, digest(key XOR ipad, msg)). -/
def hmacSum (h : HashFn) (key msg : List Nat) : List Nat :=
  h.digest ((hmacKeyPad h key).map (fun b => Nat.xor b 92) ++
    h.digest ((hmacKeyPad h key).map (fun b => Nat.xor b 54) ++ msg))

/-- messageTag of ecies.go lines 163-169: HMAC over msg followed by the
shared information. -/
def messageTag (h : HashFn) (km msg shared : List Nat) : List Nat :=
  hmacSum h km (msg ++ shared)

/-- generateIV of ecies.go lines 172-176: read BlockSize bytes from the
randomness source (io.ReadFull fails when the stream is short). -/
def generateIV (params : ECIESParams) (rand : List Nat) : Except GoError (List Nat) :=
  if rand.length < params.BlockSize then .error .randReadError
  else .ok (rand.take params.BlockSize)

/-- XORKeyStream of a CTR stream: XOR the data against the keystream. -/
def xorKeyStream (ks data : List Nat) : List Nat :=
  List.zipWith Nat.xor ks data

/-- symEncrypt of ecies.go lines 179-195: CTR encryption, the random IV
prepended to keystream XOR plaintext. -/
def symEncrypt (rand : List Nat) (params : ECIESParams) (key m : List Nat) :
    Except GoError (List Nat) :=
  match params.Cipher key with
  | .error e => .error e
  | .ok ks =>
    match generateIV params rand with
    | .error e => .error e
    | .ok iv => .ok (iv ++ xorKeyStream (ks iv m.length) m)

/-- symDecrypt of ecies.go lines 198-209: split the IV off the front and
XOR the rest against the keystream.  The slice ct[:BlockSize] is out of
range when ct is shorter than BlockSize (a Go panic, modelled by
symOutOfRange). -/
def symDecrypt (params : ECIESParams) (key ct : List Nat) : Except GoError (List Nat) :=
  match params.Cipher key with
  | .error e => .error e
  | .ok ks =>
    if ct.length < params.BlockSize then .error .symOutOfRange
    else .ok (xorKeyStream (ks (ct.take params.BlockSize) (ct.length - params.BlockSize))
      (ct.drop params.BlockSize))

/-- subtle.ConstantTimeCompare (external collaborator): 1 when the inputs
have equal length and the OR of all bytewise XORs is zero, else 0. -/
def ConstantTimeCompare (x y : List Nat) : Nat :=
  if x.length ≠ y.length then 0
  else if (List.zipWith Nat.xor x y).foldr Nat.lor 0 = 0 then 1 else 0

/-- The parameter resolution shared by Encrypt and Decrypt (ecies.go
lines 214-220 and 268-274): bound params, else the curve default. -/
def resolveParams (pub : PublicKey) : Option ECIESParams :=
  match pub.Params with
  | some p => some p
  | none => ParamsFromCurve pub.Curve

/-- Encrypt of ecies.go lines 213-254.  Note the guard on line 242: when
the symmetric ciphertext length is at most BlockSize (which happens
exactly for the empty message), the function returns a nil ciphertext and
a nil error, modelled by ok []. -/
def Encrypt (rand : List Nat) (pub : PublicKey) (m s1 s2 : List Nat) :
    Except GoError (List Nat) :=
  match resolveParams pub with
  | none => .error .ErrUnsupportedECIESParameters
  | some params =>
    match GenerateKey rand pub.Curve (some params) with
    | .error e => .error e
    | .ok (R, rand') =>
      match GenerateShared R pub with
      | .error e => .error e
      | .ok z =>
        match concatKDF params.Hash z s1 (params.KeyLen + params.KeyLen) with
        | .error e => .error e
        | .ok K =>
          match symEncrypt rand' params (K.take params.KeyLen) m with
          | .error e => .error e
          | .ok em =>
            if em.length ≤ params.BlockSize then .ok []
            else
              .ok (pub.Curve.Marshal R.PublicKey.X R.PublicKey.Y ++ em ++
                messageTag params.Hash (params.Hash.digest (K.drop params.KeyLen)) em s2)

/-- The switch on the leading ciphertext byte (ecies.go lines 280-290):
compressed forms 2 and 3 give 1 + kLen, the uncompressed form 4 gives
1 + 2 kLen, anything else is rejected. -/
def decryptMStart (pub : PublicKey) (c : List Nat) : Option Nat :=
  match c.head? with
  | none => none
  | some b =>
    if b = 2 ∨ b = 3 then some (1 + (pub.Curve.BitSize + 7) / 8)
    else if b = 4 then some (1 + 2 * ((pub.Curve.BitSize + 7) / 8))
    else none

/-- Decrypt of ecies.go lines 262-333, for the in-memory PrivateKey
instance of the KeyProvider interface. -/
def Decrypt (prv : PrivateKey) (c s1 s2 : List Nat) : Except GoError (List Nat) :=
  if c.length = 0 then .error .ErrInvalidMessage
  else
    match resolveParams prv.PublicKey with
    | none => .error .ErrUnsupportedECIESParameters
    | some params =>
      match decryptMStart prv.PublicKey c with
      | none => .error .ErrInvalidPublicKey
      | some mStart =>
        if c.length < mStart + params.Hash.Size + 1 then .error .ErrInvalidMessage
        else
          match prv.PublicKey.Curve.Unmarshal (c.take mStart) with
          | none => .error .ErrInvalidPublicKey
          | some (Rx, Ry) =>
            if prv.PublicKey.Curve.IsOnCurve Rx Ry then
              match GenerateShared prv
                  { X := Rx, Y := Ry, Curve := prv.PublicKey.Curve, Params := none } with
              | .error e => .error e
              | .ok z =>
                match concatKDF params.Hash z s1 (params.KeyLen + params.KeyLen) with
                | .error e => .error e
                | .ok K =>
                  if ConstantTimeCompare (c.drop (c.length - params.Hash.Size))
                      (messageTag params.Hash (params.Hash.digest (K.drop params.KeyLen))
                        ((c.take (c.length - params.Hash.Size)).drop mStart) s2) = 1 then
                    symDecrypt params (K.take params.KeyLen)
                      ((c.take (c.length - params.Hash.Size)).drop mStart)
                  else .error .ErrInvalidMessage
            else .error .ErrInvalidCurve

/-! Contracts of the external primitives, as the spec states them in
section 6: a hash digest always has Size bytes; the cipher factory
succeeds on keys of the configured length and yields a keystream of the
requested length.  kdfFits states that the KDF loop produces at least the
requested 2 KeyLen bytes, which holds for every supported profile
(spec section 9, open issue on the KDF iteration count). -/

/-- Number of extra KDF repetitions, as computed on ecies.go line 140. -/
def kdfReps (p : ECIESParams) : Nat :=
  ((p.KeyLen + p.KeyLen + 7) * 8) / (p.Hash.BlockSize * 8)

/-- Contract of a hash primitive: digests have exactly Size bytes. -/
structure HashContract (h : HashFn) : Prop where
  len : ∀ b, (h.digest b).length = h.Size

/-- Contract of the cipher factory at the configured key length. -/
structure CipherContract (p : ECIESParams) : Prop where
  ok : ∀ key, key.length = p.KeyLen →
    ∃ ks, p.Cipher key = .ok ks ∧ ∀ iv n, (ks iv n).length = n

/-- Contract of a full parameter set as used by the pipeline. -/
structure ParamsContract (p : ECIESParams) : Prop where
  hash : HashContract p.Hash
  cipher : CipherContract p
  kdfFits : p.KeyLen + p.KeyLen ≤ (kdfReps p + 1) * p.Hash.Size
  repsSmall : kdfReps p ≤ 2 ^ 32 - 1

/-- The fixed-width ECDH shared secret that both sides of the pipeline
derive from the x-coordinate zx. -/
def sharedSecret (C : Curve) (zx : Nat) : List Nat :=
  fillBytes zx ((C.BitSize + 7) / 8)

/-- The key material K that concatKDF returns for the pipeline's request
of 2 KeyLen bytes. -/
def derivedK (p : ECIESParams) (z s1 : List Nat) : List Nat :=
  (kdfRounds p.Hash z s1 (kdfReps p + 1) [0, 0, 0, 1]).take (p.KeyLen + p.KeyLen)

/-- The encryption sub-key Ke. -/
def derivedKe (p : ECIESParams) (z s1 : List Nat) : List Nat :=
  (derivedK p z s1).take p.KeyLen

/-- The MAC sub-key Km after the extra hash application of ecies.go
lines 237-238. -/
def derivedKm (p : ECIESParams) (z s1 : List Nat) : List Nat :=
  p.Hash.digest ((derivedK p z s1).drop p.KeyLen)

/-- A run of the encryption pipeline on one keypair and randomness
stream: the parameters resolve, the ephemeral key generation yields
(dR, Rx, Ry), the two ECDH computations of the SEC1 scheme agree on the
x-coordinate zx (the defining property of a commutative scalar
multiplication and a valid keypair), the coordinate fits in its
fixed-width encoding, enough randomness remains for the IV, and the point
codec of the curve library round-trips the ephemeral point. -/
structure EncryptRun (prv : PrivateKey) (params : ECIESParams) (rand : List Nat)
    (dR Rx Ry zx : Nat) (rand' : List Nat) : Prop where
  resolved : resolveParams prv.PublicKey = some params
  genkey : prv.PublicKey.Curve.GenKey rand = .ok ((dR, Rx, Ry), rand')
  dhEnc : ∃ zy, prv.PublicKey.Curve.ScalarMult prv.PublicKey.X prv.PublicKey.Y dR = some (zx, zy)
  dhDec : ∃ zy, prv.PublicKey.Curve.ScalarMult Rx Ry prv.D = some (zx, zy)
  zxFits : zx < 256 ^ ((prv.PublicKey.Curve.BitSize + 7) / 8)
  randEnough : params.BlockSize ≤ rand'.length
  marshalLen : (prv.PublicKey.Curve.Marshal Rx Ry).length
    = 1 + 2 * ((prv.PublicKey.Curve.BitSize + 7) / 8)
  marshalHead : (prv.PublicKey.Curve.Marshal Rx Ry).head? = some 4
  unmarshal : prv.PublicKey.Curve.Unmarshal (prv.PublicKey.Curve.Marshal Rx Ry) = some (Rx, Ry)
  onCurve : prv.PublicKey.Curve.IsOnCurve Rx Ry = true
  contract : ParamsContract params

/-! Concrete instantiations of the external primitives, used by the
witnesses and counterexamples.  They satisfy exactly the documented
interface contracts; the curve is a toy commutative group (scalar action
on a point by multiplication modulo a small prime), the hash is a
size-correct compression of the input value, the cipher is a keystream
determined by key and IV as CTR mode requires. -/

/-- A 2-byte toy hash with 4-byte blocks. -/
def toyHashA : HashFn :=
  { digest := fun b => fillBytes (bytesToNat b % 65521) 2, Size := 2, BlockSize := 4 }

/-- A toy keystream cipher: byte i of the stream is determined by key,
IV and i. -/
def toyCipher : List Nat → Except GoError (List Nat → Nat → List Nat) :=
  fun key => .ok (fun iv n => (List.range n).map (fun i => (bytesToNat key + bytesToNat iv + i) % 256))

/-- Toy parameters: 2-byte blocks and 2-byte keys over toyHashA. -/
def toyParamsA : ECIESParams :=
  { Hash := toyHashA, Cipher := toyCipher, BlockSize := 2, KeyLen := 2 }

/-- A toy curve with one-byte coordinates: the scalar d acts on a point
by coordinatewise multiplication modulo 11; the generator is (1, 1). -/
def toyCurveA : Curve :=
  { id := 1, BitSize := 8,
    ScalarMult := fun x y d => some (d * x % 11, d * y % 11),
    Marshal := fun x y => 4 :: (fillBytes x 1 ++ fillBytes y 1),
    Unmarshal := fun l => match l with
      | [4, a, b] => some (a, b)
      | _ => none,
    IsOnCurve := fun x y => decide (x < 11) && decide (y < 11),
    GenKey := fun rand => match rand with
      | [] => .error .randReadError
      | d :: rest => .ok ((d, d * 1 % 11, d * 1 % 11), rest),
    defaultParams := none }

/-- A toy private key on toyCurveA: D = 3, public point (3, 3). -/
def toyPrvA : PrivateKey :=
  { PublicKey := { X := 3, Y := 3, Curve := toyCurveA, Params := some toyParamsA }, D := 3 }

/-- The toy key with no bound parameters, on a curve with no default. -/
def toyPrvNoParams : PrivateKey :=
  { PublicKey := { X := 3, Y := 3, Curve := toyCurveA, Params := none }, D := 3 }

/-- A second toy key pair on toyCurveA for the ECDH symmetry witness:
D = 4, public point (4, 4). -/
def toyPrvA2 : PrivateKey :=
  { PublicKey := { X := 4, Y := 4, Curve := toyCurveA, Params := some toyParamsA }, D := 4 }

/-- Randomness for the toy runs: ephemeral scalar 5, then IV bytes. -/
def toyRandA : List Nat := [5, 9, 8, 7, 6]

/-- A 32-byte toy hash with 64-byte blocks (the size profile of
SHA-256). -/
def toyHashB : HashFn :=
  { digest := fun b => fillBytes (bytesToNat b % 4294967291) 32, Size := 32, BlockSize := 64 }

/-- Parameters with the size profile of the P-256 suite: 16-byte blocks
and keys, 32-byte digests. -/
def toyParamsB : ECIESParams :=
  { Hash := toyHashB, Cipher := toyCipher, BlockSize := 16, KeyLen := 16 }

/-- A toy curve with the width profile of P-256 (BitSize 256, 32-byte
coordinates): the scalar acts by multiplication modulo 97. -/
def toyCurveB : Curve :=
  { id := 2, BitSize := 256,
    ScalarMult := fun x y d => some (d * x % 97, d * y % 97),
    Marshal := fun x y => 4 :: (fillBytes x 32 ++ fillBytes y 32),
    Unmarshal := fun l =>
      if l.length = 65 ∧ l.head? = some 4 then
        some (bytesToNat ((l.drop 1).take 32), bytesToNat (l.drop 33))
      else none,
    IsOnCurve := fun x y => decide (x < 97) && decide (y < 97),
    GenKey := fun rand => match rand with
      | [] => .error .randReadError
      | d :: rest => .ok ((d, d * 1 % 97, d * 1 % 97), rest),
    defaultParams := none }

/-- A toy private key on toyCurveB: D = 3, public point (3, 3). -/
def toyPrvB : PrivateKey :=
  { PublicKey := { X := 3, Y := 3, Curve := toyCurveB, Params := some toyParamsB }, D := 3 }

/-- Randomness for the toyCurveB runs: ephemeral scalar 5, then 16 IV
bytes. -/
def toyRandB : List Nat := [5, 20, 21, 22, 23, 24, 25, 26, 27, 28, 29, 30, 31, 32, 33, 34, 35]

/-- The hash used by the KDF counterexample: the size profile of SHA-256
(Size 32, BlockSize 64), constant digest. -/
def badKdfHash : HashFn :=
  { digest := fun _ => List.replicate 32 0, Size := 32, BlockSize := 64 }

/-! Key serialization (the second source file, and spec section 4.7).
The ASN.1 DER and PEM encoders are external collaborators; they are
modelled as an abstract codec whose only assumed property is that
decoding inverts encoding.  The ASN.1 structures themselves, the OID
registry and all of the repository's marshalling logic are embedded
directly from the source. -/

/-- An ASN.1 object identifier, as a list of arc values. -/
def doScheme (base v : List Nat) : List Nat := base ++ v

/-- The SECG base OID 1.3.132.1. -/
def secgScheme : List Nat := [1, 3, 132, 1]

/-- The ANSI X9.62 base OID 1.2.840.10045. -/
def ansiX962Scheme : List Nat := [1, 2, 840, 10045]

/-- Named-curve OIDs from the source. -/
def secgNamedCurveP224 : List Nat := [1, 3, 132, 0, 33]

/-- The P-256 curve OID. -/
def secgNamedCurveP256 : List Nat := [1, 2, 840, 10045, 3, 1, 7]

/-- The P-384 curve OID. -/
def secgNamedCurveP384 : List Nat := [1, 3, 132, 0, 34]

/-- The P-521 curve OID. -/
def secgNamedCurveP521 : List Nat := [1, 3, 132, 0, 35]

/-- The supplemented EC public key algorithm OID 1.2.840.10045.2.0. -/
def idEcPublicKeySupplemented : List Nat := doScheme (doScheme ansiX962Scheme [2]) [0]

/-- An ASN.1 AlgorithmIdentifier (the optional Parameters slot is never
populated by the source and is omitted). -/
structure asnAlgorithmIdentifier where
  Algorithm : List Nat
  deriving DecidableEq

/-- The ECDH-with-SHA-224 KDF algorithm identifier. -/
def dhSinglePass_stdDH_sha224kdf : asnAlgorithmIdentifier := ⟨doScheme secgScheme [11, 0]⟩

/-- The ECDH-with-SHA-256 KDF algorithm identifier. -/
def dhSinglePass_stdDH_sha256kdf : asnAlgorithmIdentifier := ⟨doScheme secgScheme [11, 1]⟩

/-- The ECDH-with-SHA-384 KDF algorithm identifier. -/
def dhSinglePass_stdDH_sha384kdf : asnAlgorithmIdentifier := ⟨doScheme secgScheme [11, 2]⟩

/-- The ECDH-with-SHA-512 KDF algorithm identifier. -/
def dhSinglePass_stdDH_sha512kdf : asnAlgorithmIdentifier := ⟨doScheme secgScheme [11, 3]⟩

/-- The NIST concatenation KDF identifier. -/
def asnNISTConcatenationKDF : asnAlgorithmIdentifier := ⟨doScheme secgScheme [17, 1]⟩

/-- AES-128 in CTR mode under ECIES. -/
def aes128CTRinECIES : asnAlgorithmIdentifier := ⟨doScheme secgScheme [21, 0]⟩

/-- AES-192 in CTR mode under ECIES. -/
def aes192CTRinECIES : asnAlgorithmIdentifier := ⟨doScheme secgScheme [21, 1]⟩

/-- AES-256 in CTR mode under ECIES. -/
def aes256CTRinECIES : asnAlgorithmIdentifier := ⟨doScheme secgScheme [21, 2]⟩

/-- Full-length HMAC. -/
def hmacFull : asnAlgorithmIdentifier := ⟨doScheme secgScheme [22]⟩

/-- The ECIES parameter suite carried in the supplements. -/
structure asnECIESParameters where
  KDF : asnAlgorithmIdentifier
  Sym : asnAlgorithmIdentifier
  MAC : asnAlgorithmIdentifier
  deriving DecidableEq

/-- The algorithm set of the supplements. -/
structure eccAlgorithmSet where
  ECDH : asnAlgorithmIdentifier
  ECIES : asnECIESParameters
  deriving DecidableEq

/-- The supplements: named-curve OID plus algorithm set. -/
structure ecpksSupplements where
  ECDomain : List Nat
  ECCAlgorithms : eccAlgorithmSet
  deriving DecidableEq

/-- An ASN.1 BIT STRING. -/
structure BitString where
  BitLength : Nat
  Bytes : List Nat
  deriving DecidableEq

/-- The SubjectPublicKeyInfo-like structure of the source. -/
structure asnSubjectPublicKeyInfo where
  Algorithm : List Nat
  PublicKey : BitString
  Supplements : ecpksSupplements
  deriving DecidableEq

/-- The ASN.1 private-key structure of the source. -/
structure asnPrivateKey where
  Version : Nat
  Private : List Nat
  Curve : List Nat
  Public : BitString
  deriving DecidableEq

/-- The zero value of the algorithm set (Go leaves it zero when the key
has no bound parameters). -/
def zeroAlgorithmSet : eccAlgorithmSet :=
  { ECDH := ⟨[]⟩, ECIES := { KDF := ⟨[]⟩, Sym := ⟨[]⟩, MAC := ⟨[]⟩ } }

/-- The zero value of ECIESParams, as Go's new(ECIESParams) allocates
it. -/
def zeroECIESParams : ECIESParams :=
  { Hash := { digest := fun _ => [], Size := 0, BlockSize := 0 },
    Cipher := fun _ => .error .cipherError, BlockSize := 0, KeyLen := 0 }

/-- The curve-equation test of the external NIST curves, with the
standard short-Weierstrass a = -3: y^2 = x^3 - 3x + b over the prime
field. -/
def nistOnCurve (p b x y : Nat) : Bool :=
  decide (x < p ∧ y < p ∧ y * y % p = (x * x * x + 3 * (p - x) + b) % p)

/-- elliptic.Marshal of the external library: the uncompressed SEC1 form
with leading byte 4 and fixed-width coordinates. -/
def nistMarshal (bits x y : Nat) : List Nat :=
  4 :: (fillBytes x ((bits + 7) / 8) ++ fillBytes y ((bits + 7) / 8))

/-- elliptic.Unmarshal of the external library: accept only the
uncompressed form of the right length whose point lies on the curve. -/
def nistUnmarshal (bits p b : Nat) (data : List Nat) : Option (Nat × Nat) :=
  if data.length = 1 + 2 * ((bits + 7) / 8) ∧ data.head? = some 4 then
    if nistOnCurve p b (bytesToNat ((data.drop 1).take ((bits + 7) / 8)))
        (bytesToNat (data.drop (1 + (bits + 7) / 8))) then
      some (bytesToNat ((data.drop 1).take ((bits + 7) / 8)),
            bytesToNat (data.drop (1 + (bits + 7) / 8)))
    else none
  else none

/-- The P-224 field prime. -/
def p224P : Nat := 2 ^ 224 - 2 ^ 96 + 1

/-- The P-224 curve coefficient b. -/
def p224B : Nat := 0xb4050a850c04b3abf54132565044b0b7d7bfd8ba270b39432355ffb4

/-- The P-256 field prime. -/
def p256P : Nat := 2 ^ 256 - 2 ^ 224 + 2 ^ 192 + 2 ^ 96 - 1

/-- The P-256 curve coefficient b. -/
def p256B : Nat := 0x5ac635d8aa3a93e7b3ebbd55769886bc651d06b0cc53b0f63bce3c3e27d2604b

/-- The P-384 field prime. -/
def p384P : Nat := 2 ^ 384 - 2 ^ 128 - 2 ^ 96 + 2 ^ 32 - 1

/-- The P-384 curve coefficient b. -/
def p384B : Nat :=
  0xb3312fa7e23ee7e4988e056be3f82d19181d9c6efe8141120314088f5013875ac656398d8a2ed19d2a85c8edd3ec2aef

/-- The P-521 field prime. -/
def p521P : Nat := 2 ^ 521 - 1

/-- The P-521 curve coefficient b. -/
def p521B : Nat :=
  0x0051953eb9618e1c9a1f929a21a0b68540eea2da725b99b315f3b8b489918ef109e156193951ec7e937b1652c0bd3bb1bf073573df883d2c34f1ef451fd46b503f00

/-- The external elliptic.P224 singleton, modelled at the interface the
serialization code consumes: identity, bit size, the point codec and the
curve membership test with the real P-224 field parameters.  The
serialization functions never invoke scalar multiplication or key
generation, so the arithmetic slots carry the always-failing stubs of an
interface never exercised; the pipeline theorems use curves whose
arithmetic is constrained by explicit contract hypotheses instead. -/
def P224 : Curve :=
  { id := 224, BitSize := 224,
    ScalarMult := fun _ _ _ => none,
    Marshal := nistMarshal 224,
    Unmarshal := nistUnmarshal 224 p224P p224B,
    IsOnCurve := nistOnCurve p224P p224B,
    GenKey := fun _ => .error .randReadError,
    defaultParams := none }

/-- The external elliptic.P256 singleton, modelled as P224 is. -/
def P256 : Curve :=
  { id := 256, BitSize := 256,
    ScalarMult := fun _ _ _ => none,
    Marshal := nistMarshal 256,
    Unmarshal := nistUnmarshal 256 p256P p256B,
    IsOnCurve := nistOnCurve p256P p256B,
    GenKey := fun _ => .error .randReadError,
    defaultParams := none }

/-- The external elliptic.P384 singleton, modelled as P224 is. -/
def P384 : Curve :=
  { id := 384, BitSize := 384,
    ScalarMult := fun _ _ _ => none,
    Marshal := nistMarshal 384,
    Unmarshal := nistUnmarshal 384 p384P p384B,
    IsOnCurve := nistOnCurve p384P p384B,
    GenKey := fun _ => .error .randReadError,
    defaultParams := none }

/-- The external elliptic.P521 singleton, modelled as P224 is. -/
def P521 : Curve :=
  { id := 521, BitSize := 521,
    ScalarMult := fun _ _ _ => none,
    Marshal := nistMarshal 521,
    Unmarshal := nistUnmarshal 521 p521P p521B,
    IsOnCurve := nistOnCurve p521P p521B,
    GenKey := fun _ => .error .randReadError,
    defaultParams := none }

/-- namedCurveFromOID of the source: the OID-to-curve table (nil for an
unknown OID). -/
def namedCurveFromOID (oid : List Nat) : Option Curve :=
  if oid = secgNamedCurveP224 then some P224
  else if oid = secgNamedCurveP256 then some P256
  else if oid = secgNamedCurveP384 then some P384
  else if oid = secgNamedCurveP521 then some P521
  else none

/-- oidFromNamedCurve of the source: the curve-to-OID table.  Go
compares the curve interface against the four singletons; the model
compares the singleton identity. -/
def oidFromNamedCurve (c : Curve) : Option (List Nat) :=
  if c.id = 224 then some secgNamedCurveP224
  else if c.id = 256 then some secgNamedCurveP256
  else if c.id = 384 then some secgNamedCurveP384
  else if c.id = 521 then some secgNamedCurveP521
  else none

/-- Modelled from the spec: paramsToASNECIES (params.go, absent from
src/) maps a parameter set to the advisory ECIES suite OIDs of spec
section 4.7: the NIST concatenation KDF, the AES-CTR variant selected by
the key length, and full-length HMAC. -/
def paramsToASNECIES (p : ECIESParams) : asnECIESParameters :=
  { KDF := asnNISTConcatenationKDF,
    Sym := if p.KeyLen = 16 then aes128CTRinECIES
           else if p.KeyLen = 24 then aes192CTRinECIES
           else aes256CTRinECIES,
    MAC := hmacFull }

/-- Modelled from the spec: paramsToASNECDH (params.go, absent from
src/) selects the ECDH-with-SHAx identifier matching the hash size. -/
def paramsToASNECDH (p : ECIESParams) : asnAlgorithmIdentifier :=
  if p.Hash.Size = 28 then dhSinglePass_stdDH_sha224kdf
  else if p.Hash.Size = 32 then dhSinglePass_stdDH_sha256kdf
  else if p.Hash.Size = 48 then dhSinglePass_stdDH_sha384kdf
  else dhSinglePass_stdDH_sha512kdf

/-- Modelled from the spec: asnECIEStoParams (params.go, absent from
src/) advisorily populates the size fields of the parameters from a
recognized symmetric-cipher OID (spec section 4.7: the supplements "may
populate Params").  The hash and cipher factories are external
primitives; no claim consults the advisory parameters of an imported
key, so their factory slots are left as given. -/
def asnECIEStoParams (a : asnECIESParameters) (p : ECIESParams) : ECIESParams :=
  if a.Sym = aes128CTRinECIES then { p with KeyLen := 16, BlockSize := 16 }
  else if a.Sym = aes192CTRinECIES then { p with KeyLen := 24, BlockSize := 16 }
  else if a.Sym = aes256CTRinECIES then { p with KeyLen := 32, BlockSize := 16 }
  else p

/-- Modelled from the spec: asnECDHtoParams (params.go, absent from
src/); the ECDH identifier names a hash primitive, an external factory
that no claim consults, so the population is the identity here. -/
def asnECDHtoParams (_a : asnAlgorithmIdentifier) (p : ECIESParams) : ECIESParams := p

/-- The abstract DER and PEM codec (external encoding/asn1 and
encoding/pem libraries), at the interface the repository consumes. -/
structure ASN1Codec where
  marshalSPKI : asnSubjectPublicKeyInfo → List Nat
  unmarshalSPKI : List Nat → Except GoError asnSubjectPublicKeyInfo
  marshalPriv : asnPrivateKey → List Nat
  unmarshalPriv : List Nat → Except GoError asnPrivateKey
  pemEncode : String → List Nat → List Nat
  pemDecode : List Nat → Option (String × List Nat)

/-- marshalSubjectPublicKeyInfo of the source (lines 227-245): the
supplemented algorithm OID, the curve OID, the advisory suite when
parameters are bound, and the marshalled point as a BIT STRING. -/
def marshalSubjectPublicKeyInfo (pub : PublicKey) : Except GoError asnSubjectPublicKeyInfo :=
  match oidFromNamedCurve pub.Curve with
  | none => .error .ErrInvalidPublicKey
  | some curveOid =>
    .ok { Algorithm := idEcPublicKeySupplemented,
          PublicKey := { BitLength := (pub.Curve.Marshal pub.X pub.Y).length * 8,
                         Bytes := pub.Curve.Marshal pub.X pub.Y },
          Supplements := { ECDomain := curveOid,
                           ECCAlgorithms := match pub.Params with
                             | some ps =>
                               { ECDH := paramsToASNECDH ps, ECIES := paramsToASNECIES ps }
                             | none => zeroAlgorithmSet } }

/-- MarshalPublic of the source (lines 248-254). -/
def MarshalPublic (cod : ASN1Codec) (pub : PublicKey) : Except GoError (List Nat) :=
  match marshalSubjectPublicKeyInfo pub with
  | .error e => .error e
  | .ok subj => .ok (cod.marshalSPKI subj)

/-- UnmarshalPublic of the source (lines 257-285): decode the structure,
check the algorithm OID, look up the named curve (a nil curve would be
dereferenced by elliptic.Unmarshal, modelled by the nilCurve error),
unmarshal the point and advisorily populate the parameters.  The final
nil test of the source is dead code (Params was just allocated) and
contributes nothing. -/
def UnmarshalPublic (cod : ASN1Codec) (inp : List Nat) : Except GoError PublicKey :=
  match cod.unmarshalSPKI inp with
  | .error e => .error e
  | .ok subj =>
    if subj.Algorithm ≠ idEcPublicKeySupplemented then .error .ErrInvalidPublicKey
    else
      match namedCurveFromOID subj.Supplements.ECDomain with
      | none => .error .nilCurve
      | some cv =>
        match cv.Unmarshal subj.PublicKey.Bytes with
        | none => .error .ErrInvalidPublicKey
        | some (x, y) =>
          .ok { X := x, Y := y, Curve := cv,
                Params := some (asnECDHtoParams subj.Supplements.ECCAlgorithms.ECDH
                  (asnECIEStoParams subj.Supplements.ECCAlgorithms.ECIES zeroECIESParams)) }

/-- marshalPrivateKey of the source (lines 287-308): version 1, the
minimal big-endian scalar bytes, the curve OID and the embedded DER
public key as a BIT STRING. -/
def marshalPrivateKey (cod : ASN1Codec) (prv : PrivateKey) : Except GoError asnPrivateKey :=
  match oidFromNamedCurve prv.PublicKey.Curve with
  | none => .error .ErrInvalidPrivateKey
  | some curveOid =>
    match MarshalPublic cod prv.PublicKey with
    | .error e => .error e
    | .ok pubDer =>
      .ok { Version := 1, Private := natToBytes prv.D, Curve := curveOid,
            Public := { BitLength := pubDer.length * 8, Bytes := pubDer } }

/-- MarshalPrivate of the source (lines 311-317). -/
def MarshalPrivate (cod : ASN1Codec) (prv : PrivateKey) : Except GoError (List Nat) :=
  match marshalPrivateKey cod prv with
  | .error e => .error e
  | .ok ecprv => .ok (cod.marshalPriv ecprv)

/-- UnmarshalPrivate of the source (lines 320-346): decode, check the
version, require a known curve OID, rebuild the scalar from its bytes
and recover the embedded public key. -/
def UnmarshalPrivate (cod : ASN1Codec) (inp : List Nat) : Except GoError PrivateKey :=
  match cod.unmarshalPriv inp with
  | .error e => .error e
  | .ok ecprv =>
    if ecprv.Version ≠ 1 then .error .ErrInvalidPrivateKey
    else
      match namedCurveFromOID ecprv.Curve with
      | none => .error .ErrInvalidPrivateKey
      | some _ =>
        match UnmarshalPublic cod ecprv.Public.Bytes with
        | .error e => .error e
        | .ok pub => .ok { PublicKey := pub, D := bytesToNat ecprv.Private }

/-- ExportPublicPEM of the source (lines 349-367). -/
def ExportPublicPEM (cod : ASN1Codec) (pub : PublicKey) : Except GoError (List Nat) :=
  match MarshalPublic cod pub with
  | .error e => .error e
  | .ok der => .ok (cod.pemEncode "ELLIPTIC CURVE PUBLIC KEY" der)

/-- ImportPublicPEM of the source (lines 391-399): reject a missing or
mismatching PEM block, then decode the DER body. -/
def ImportPublicPEM (cod : ASN1Codec) (inp : List Nat) : Except GoError PublicKey :=
  match cod.pemDecode inp with
  | none => .error .ErrInvalidPublicKey
  | some (ty, bytes) =>
    if ty ≠ "ELLIPTIC CURVE PUBLIC KEY" then .error .ErrInvalidPublicKey
    else UnmarshalPublic cod bytes

/-! A concrete codec for the serialization witnesses: every field is
stored length-prefixed, so decoding inverts encoding. -/

/-- Length-prefixed encoding of one byte-string field. -/
def encL (l : List Nat) : List Nat := l.length :: l

/-- Decoder of one length-prefixed field, returning the field and the
remaining input. -/
def decL : List Nat → Option (List Nat × List Nat)
  | [] => none
  | n :: rest => if n ≤ rest.length then some (rest.take n, rest.drop n) else none

/-- Concrete SubjectPublicKeyInfo encoder of the witness codec. -/
def encodeSPKI (s : asnSubjectPublicKeyInfo) : List Nat :=
  encL s.Algorithm ++ s.PublicKey.BitLength :: encL s.PublicKey.Bytes ++
    encL s.Supplements.ECDomain ++ encL s.Supplements.ECCAlgorithms.ECDH.Algorithm ++
    encL s.Supplements.ECCAlgorithms.ECIES.KDF.Algorithm ++
    encL s.Supplements.ECCAlgorithms.ECIES.Sym.Algorithm ++
    encL s.Supplements.ECCAlgorithms.ECIES.MAC.Algorithm

/-- Concrete SubjectPublicKeyInfo decoder of the witness codec. -/
def decodeSPKI (l : List Nat) : Except GoError asnSubjectPublicKeyInfo :=
  match decL l with
  | none => .error .ErrImport
  | some (alg, r1) =>
    match r1 with
    | [] => .error .ErrImport
    | bitLen :: r2 =>
      match decL r2 with
      | none => .error .ErrImport
      | some (pkBytes, r3) =>
        match decL r3 with
        | none => .error .ErrImport
        | some (dom, r4) =>
          match decL r4 with
          | none => .error .ErrImport
          | some (ecdh, r5) =>
            match decL r5 with
            | none => .error .ErrImport
            | some (kdf, r6) =>
              match decL r6 with
              | none => .error .ErrImport
              | some (sym, r7) =>
                match decL r7 with
                | none => .error .ErrImport
                | some (mac, _) =>
                  .ok { Algorithm := alg,
                        PublicKey := { BitLength := bitLen, Bytes := pkBytes },
                        Supplements := ⟨dom, ⟨⟨ecdh⟩, ⟨⟨kdf⟩, ⟨sym⟩, ⟨mac⟩⟩⟩⟩ }

/-- Concrete private-key encoder of the witness codec. -/
def encodePRIV (s : asnPrivateKey) : List Nat :=
  s.Version :: encL s.Private ++ encL s.Curve ++ s.Public.BitLength :: encL s.Public.Bytes

/-- Concrete private-key decoder of the witness codec. -/
def decodePRIV (l : List Nat) : Except GoError asnPrivateKey :=
  match l with
  | [] => .error .ErrImport
  | ver :: r1 =>
    match decL r1 with
    | none => .error .ErrImport
    | some (priv, r2) =>
      match decL r2 with
      | none => .error .ErrImport
      | some (curveOid, r3) =>
        match r3 with
        | [] => .error .ErrImport
        | bitLen :: r4 =>
          match decL r4 with
          | none => .error .ErrImport
          | some (pubBytes, _) =>
            .ok { Version := ver, Private := priv, Curve := curveOid,
                  Public := { BitLength := bitLen, Bytes := pubBytes } }

/-- Concrete PEM encoder of the witness codec: a marker byte per known
block type in front of the DER body. -/
def encodePEM (ty : String) (b : List Nat) : List Nat :=
  (if ty = "ELLIPTIC CURVE PUBLIC KEY" then 0 else 1) :: b

/-- Concrete PEM decoder of the witness codec. -/
def decodePEM : List Nat → Option (String × List Nat)
  | [] => none
  | 0 :: r => some ("ELLIPTIC CURVE PUBLIC KEY", r)
  | _ :: r => some ("ELLIPTIC CURVE PRIVATE KEY", r)

/-- The assembled witness codec. -/
def toyCodec : ASN1Codec :=
  { marshalSPKI := encodeSPKI, unmarshalSPKI := decodeSPKI,
    marshalPriv := encodePRIV, unmarshalPriv := decodePRIV,
    pemEncode := encodePEM, pemDecode := decodePEM }

/-- The x-coordinate of the P-256 base point. -/
def p256Gx : Nat := 0x6b17d1f2e12c4247f8bce6e563a440f277037d812deb33a0f4a13945d898c296

/-- The y-coordinate of the P-256 base point. -/
def p256Gy : Nat := 0x4fe342e2fe1a7f9b8ee7eb4a7c0f9e162bce33576b315ececbb6406837bf51f5

/-- A concrete P-256 key for the serialization witness: the base point
with scalar 1 and no bound parameters. -/
def p256WitnessKey : PrivateKey :=
  { PublicKey := { X := p256Gx, Y := p256Gy, Curve := P256, Params := none }, D := 1 }

/-! Helper lemmas about the byte-level primitives. -/

theorem fillBytes_length (x len : Nat) : (fillBytes x len).length = len := by
  simp [fillBytes]

theorem bytesToNat_append_singleton (l : List Nat) (b : Nat) :
    bytesToNat (l ++ [b]) = bytesToNat l * 256 + b := by
  simp [bytesToNat, List.foldl_append]

theorem bytesToNat_natToBytes (n : Nat) : bytesToNat (natToBytes n) = n := by
  induction n using Nat.strong_induction_on with
  | _ n ih =>
    rw [natToBytes]
    split
    · rename_i h; simp [bytesToNat, h]
    · rename_i h
      rw [bytesToNat_append_singleton,
        ih (n / 256) (Nat.div_lt_self (Nat.pos_of_ne_zero h) (by omega))]
      omega

theorem getD_set_self (l : List Nat) (i b d : Nat) (h : i < l.length) :
    (l.set i b).getD i d = b := by
  rw [List.getD_eq_getElem?_getD, List.getElem?_set_self h]
  rfl

theorem set_ne_self (l : List Nat) (i b d : Nat) (h : i < l.length) (hb : b ≠ l.getD i d) :
    l.set i b ≠ l := fun he => hb (by rw [← getD_set_self l i b d h, he])

theorem xor_xor_cancel (a b : Nat) : Nat.xor a (Nat.xor a b) = b := by
  show a ^^^ (a ^^^ b) = b
  rw [← Nat.xor_assoc, Nat.xor_self, Nat.zero_xor]

theorem zipWith_xor_cancel :
    ∀ (a b : List Nat), a.length = b.length →
      List.zipWith Nat.xor a (List.zipWith Nat.xor a b) = b
  | [], [], _ => rfl
  | [], _ :: _, h => by simp at h
  | _ :: _, [], h => by simp at h
  | x :: xs, y :: ys, h => by
    rw [List.zipWith_cons_cons, List.zipWith_cons_cons, xor_xor_cancel,
      zipWith_xor_cancel xs ys (by simpa using h)]

theorem lor_eq_zero {m n : Nat} (h : m ||| n = 0) : m = 0 ∧ n = 0 := by
  constructor
  · by_contra hm
    obtain ⟨i, hi⟩ := Nat.exists_most_significant_bit hm
    have h2 := congrArg (fun x => Nat.testBit x i) h
    simp [Nat.testBit_or, hi.1] at h2
  · by_contra hm
    obtain ⟨i, hi⟩ := Nat.exists_most_significant_bit hm
    have h2 := congrArg (fun x => Nat.testBit x i) h
    simp [Nat.testBit_or, hi.1] at h2

theorem foldr_lor_eq_zero : ∀ l : List Nat, (l.foldr Nat.lor 0 = 0 ↔ ∀ x ∈ l, x = 0)
  | [] => by simp
  | a :: t => by
    simp only [List.foldr_cons, List.mem_cons]
    constructor
    · intro h
      obtain ⟨ha, ht⟩ := lor_eq_zero h
      intro x hx
      rcases hx with hx | hx
      · exact hx ▸ ha
      · exact (foldr_lor_eq_zero t).mp ht x hx
    · intro h
      rw [(foldr_lor_eq_zero t).mpr (fun x hx => h x (Or.inr hx)), h a (Or.inl rfl)]
      decide

theorem eq_of_zip_xor_zero :
    ∀ (x y : List Nat), x.length = y.length →
      (∀ z ∈ List.zipWith Nat.xor x y, z = 0) → x = y
  | [], [], _, _ => rfl
  | [], _ :: _, h, _ => by simp at h
  | _ :: _, [], h, _ => by simp at h
  | a :: xs, b :: ys, h, hz => by
    have hab : a = b := Nat.xor_eq_zero.mp
      (hz (Nat.xor a b) (by rw [List.zipWith_cons_cons]; exact List.mem_cons_self _ _))
    have ht : xs = ys :=
      eq_of_zip_xor_zero xs ys (by simpa using h)
        (fun z hzm => hz z (by rw [List.zipWith_cons_cons]; exact List.mem_cons_of_mem _ hzm))
    rw [hab, ht]

theorem ConstantTimeCompare_eq_one_iff (x y : List Nat) :
    ConstantTimeCompare x y = 1 ↔ x = y := by
  unfold ConstantTimeCompare
  constructor
  · intro h
    by_cases hl : x.length = y.length
    · rw [if_neg (by omega)] at h
      by_cases hz : (List.zipWith Nat.xor x y).foldr Nat.lor 0 = 0
      · exact eq_of_zip_xor_zero x y hl ((foldr_lor_eq_zero _).mp hz)
      · rw [if_neg hz] at h; omega
    · rw [if_pos hl] at h; omega
  · intro h
    subst h
    rw [if_neg (by omega), if_pos]
    apply (foldr_lor_eq_zero _).mpr
    intro z hz
    have : ∀ l : List Nat, z ∈ List.zipWith Nat.xor l l → z = 0 := by
      intro l
      induction l with
      | nil => simp
      | cons a t ih =>
        intro hm
        rw [List.zipWith_cons_cons] at hm
        rcases List.mem_cons.mp hm with h1 | h1
        · rw [h1]; exact Nat.xor_self a
        · exact ih h1
    exact this x hz

/-! Helper lemmas about the KDF, the tag and the shared secret. -/

theorem kdfRounds_length (h : HashFn) (hc : HashContract h) (z s1 : List Nat) :
    ∀ (n : Nat) (ctr : List Nat), (kdfRounds h z s1 n ctr).length = n * h.Size
  | 0, _ => by simp [kdfRounds]
  | n + 1, ctr => by
    simp only [kdfRounds, List.length_append, hc.len,
      kdfRounds_length h hc z s1 n (incCounter ctr)]
    ring

theorem concatKDF_ok (p : ECIESParams) (hc : ParamsContract p) (z s1 : List Nat) :
    concatKDF p.Hash z s1 (p.KeyLen + p.KeyLen) = .ok (derivedK p z s1) := by
  have hreps : ((p.KeyLen + p.KeyLen + 7) * 8) / (p.Hash.BlockSize * 8) = kdfReps p := rfl
  unfold concatKDF
  rw [hreps, if_neg (by have := hc.repsSmall; omega), if_neg ?hfit]
  · rfl
  case hfit =>
    rw [kdfRounds_length p.Hash hc.hash z s1 (kdfReps p + 1) [0, 0, 0, 1]]
    have := hc.kdfFits
    omega

theorem derivedK_length (p : ECIESParams) (hc : ParamsContract p) (z s1 : List Nat) :
    (derivedK p z s1).length = p.KeyLen + p.KeyLen := by
  unfold derivedK
  rw [List.length_take, kdfRounds_length p.Hash hc.hash z s1 (kdfReps p + 1) [0, 0, 0, 1]]
  have := hc.kdfFits
  omega

theorem derivedKe_length (p : ECIESParams) (hc : ParamsContract p) (z s1 : List Nat) :
    (derivedKe p z s1).length = p.KeyLen := by
  unfold derivedKe
  rw [List.length_take, derivedK_length p hc z s1]
  omega

theorem messageTag_length (h : HashFn) (hc : HashContract h) (km msg shared : List Nat) :
    (messageTag h km msg shared).length = h.Size := hc.len _

theorem GenerateShared_eq (prv : PrivateKey) (pub : PublicKey) (zx zy : Nat)
    (hcurve : prv.PublicKey.Curve.id = pub.Curve.id)
    (hsm : pub.Curve.ScalarMult pub.X pub.Y prv.D = some (zx, zy))
    (hfit : zx < 256 ^ ((pub.Curve.BitSize + 7) / 8)) :
    GenerateShared prv pub = .ok (sharedSecret pub.Curve zx) := by
  unfold GenerateShared
  rw [if_neg (by omega), hsm]
  simp [sharedSecret, Nat.not_le.mpr hfit]

/-! The two pipeline lemmas: the exact wire frame Encrypt emits, and how
Decrypt treats an arbitrary frame carrying the ephemeral point of a run. -/

theorem Encrypt_shape (prv : PrivateKey) (params : ECIESParams) (rand : List Nat)
    (dR Rx Ry zx : Nat) (rand' : List Nat) (m s1 s2 : List Nat)
    (h : EncryptRun prv params rand dR Rx Ry zx rand') (hm : 1 ≤ m.length) :
    ∃ ks, params.Cipher (derivedKe params (sharedSecret prv.PublicKey.Curve zx) s1) = .ok ks ∧
      (∀ iv n, (ks iv n).length = n) ∧
      Encrypt rand prv.PublicKey m s1 s2 = .ok
        (prv.PublicKey.Curve.Marshal Rx Ry ++
          ((rand'.take params.BlockSize ++
            xorKeyStream (ks (rand'.take params.BlockSize) m.length) m) ++
          messageTag params.Hash (derivedKm params (sharedSecret prv.PublicKey.Curve zx) s1)
            (rand'.take params.BlockSize ++
              xorKeyStream (ks (rand'.take params.BlockSize) m.length) m) s2)) := by
  obtain ⟨ks, hks, hkslen⟩ :=
    h.contract.cipher.ok _ (derivedKe_length params h.contract (sharedSecret prv.PublicKey.Curve zx) s1)
  refine ⟨ks, hks, hkslen, ?_⟩
  obtain ⟨zy, hzy⟩ := h.dhEnc
  have hgs : GenerateShared
      { PublicKey := { X := Rx, Y := Ry, Curve := prv.PublicKey.Curve, Params := some params },
        D := dR } prv.PublicKey = .ok (sharedSecret prv.PublicKey.Curve zx) :=
    GenerateShared_eq _ _ zx zy rfl hzy h.zxFits
  have hiv : generateIV params rand' = .ok (rand'.take params.BlockSize) := by
    unfold generateIV
    rw [if_neg (by have := h.randEnough; omega)]
  have hemlen : (rand'.take params.BlockSize ++
      xorKeyStream (ks (rand'.take params.BlockSize) m.length) m).length
      = params.BlockSize + m.length := by
    have := h.randEnough
    simp [xorKeyStream, List.length_take, hkslen]
    omega
  have hguard : ¬ ((rand'.take params.BlockSize ++
      xorKeyStream (ks (rand'.take params.BlockSize) m.length) m).length ≤ params.BlockSize) := by
    rw [hemlen]; omega
  simp only [derivedKe] at hks
  simp only [Encrypt, GenerateKey, h.resolved, h.genkey, hgs,
    concatKDF_ok params h.contract (sharedSecret prv.PublicKey.Curve zx) s1,
    symEncrypt, hks, hiv, hguard, if_false, derivedKm]
  rw [List.append_assoc]

theorem Decrypt_frame (prv : PrivateKey) (params : ECIESParams) (rand : List Nat)
    (dR Rx Ry zx : Nat) (rand' : List Nat) (s1 s2 body tag : List Nat)
    (h : EncryptRun prv params rand dR Rx Ry zx rand')
    (hbody : 1 ≤ body.length) (htag : tag.length = params.Hash.Size) :
    Decrypt prv (prv.PublicKey.Curve.Marshal Rx Ry ++ (body ++ tag)) s1 s2 =
      if tag = messageTag params.Hash
          (derivedKm params (sharedSecret prv.PublicKey.Curve zx) s1) body s2
      then symDecrypt params (derivedKe params (sharedSecret prv.PublicKey.Curve zx) s1) body
      else .error .ErrInvalidMessage := by
  obtain ⟨t, hT⟩ : ∃ t, prv.PublicKey.Curve.Marshal Rx Ry = 4 :: t := by
    rcases hM : prv.PublicKey.Curve.Marshal Rx Ry with _ | ⟨a, t⟩
    · exact absurd (hM ▸ h.marshalHead) (by simp)
    · refine ⟨t, ?_⟩
      have ha := hM ▸ h.marshalHead
      simp at ha
      rw [ha]
  have hRbL := h.marshalLen
  obtain ⟨zy, hzy⟩ := h.dhDec
  have hgs : GenerateShared prv
      { X := Rx, Y := Ry, Curve := prv.PublicKey.Curve, Params := none }
      = .ok (sharedSecret prv.PublicKey.Curve zx) :=
    GenerateShared_eq _ _ zx zy rfl hzy h.zxFits
  have hclen : (prv.PublicKey.Curve.Marshal Rx Ry ++ (body ++ tag)).length
      = 1 + 2 * ((prv.PublicKey.Curve.BitSize + 7) / 8) + body.length + params.Hash.Size := by
    simp [hRbL, htag]; omega
  have h0 : ¬ ((prv.PublicKey.Curve.Marshal Rx Ry ++ (body ++ tag)).length = 0) := by
    rw [hclen]; omega
  have hms : decryptMStart prv.PublicKey (prv.PublicKey.Curve.Marshal Rx Ry ++ (body ++ tag))
      = some (1 + 2 * ((prv.PublicKey.Curve.BitSize + 7) / 8)) := by
    rw [hT]
    simp [decryptMStart]
  have hstruct : ¬ ((prv.PublicKey.Curve.Marshal Rx Ry ++ (body ++ tag)).length
      < 1 + 2 * ((prv.PublicKey.Curve.BitSize + 7) / 8) + params.Hash.Size + 1) := by
    rw [hclen]; omega
  have htake : (prv.PublicKey.Curve.Marshal Rx Ry ++ (body ++ tag)).take
      (1 + 2 * ((prv.PublicKey.Curve.BitSize + 7) / 8))
      = prv.PublicKey.Curve.Marshal Rx Ry := by
    rw [← hRbL]
    exact List.take_left _ _
  have hmEnd : (prv.PublicKey.Curve.Marshal Rx Ry ++ (body ++ tag)).length - params.Hash.Size
      = (prv.PublicKey.Curve.Marshal Rx Ry).length + body.length := by
    rw [hclen, hRbL]; omega
  have hbodyx : ((prv.PublicKey.Curve.Marshal Rx Ry ++ (body ++ tag)).take
        ((prv.PublicKey.Curve.Marshal Rx Ry ++ (body ++ tag)).length - params.Hash.Size)).drop
        (1 + 2 * ((prv.PublicKey.Curve.BitSize + 7) / 8))
      = body := by
    rw [hmEnd, ← hRbL, List.take_append, List.take_left, List.drop_left]
  have htagx : (prv.PublicKey.Curve.Marshal Rx Ry ++ (body ++ tag)).drop
        ((prv.PublicKey.Curve.Marshal Rx Ry ++ (body ++ tag)).length - params.Hash.Size)
      = tag := by
    rw [hmEnd, List.drop_append, List.drop_left]
  by_cases hteq : tag = messageTag params.Hash
      (derivedKm params (sharedSecret prv.PublicKey.Curve zx) s1) body s2
  · rw [if_pos hteq]
    have hctc : ConstantTimeCompare tag (messageTag params.Hash
        (derivedKm params (sharedSecret prv.PublicKey.Curve zx) s1) body s2) = 1 :=
      (ConstantTimeCompare_eq_one_iff _ _).mpr hteq
    simp only [Decrypt, h0, if_false, h.resolved, hms, hstruct, htake, h.unmarshal,
      h.onCurve, if_true, hgs,
      concatKDF_ok params h.contract (sharedSecret prv.PublicKey.Curve zx) s1,
      hbodyx, htagx, derivedKm, derivedKe] at hctc ⊢
    rw [if_pos hctc]
  · rw [if_neg hteq]
    have hctc : ¬ (ConstantTimeCompare tag (messageTag params.Hash
        (derivedKm params (sharedSecret prv.PublicKey.Curve zx) s1) body s2) = 1) :=
      fun hc => hteq ((ConstantTimeCompare_eq_one_iff _ _).mp hc)
    simp only [Decrypt, h0, if_false, h.resolved, hms, hstruct, htake, h.unmarshal,
      h.onCurve, if_true, hgs,
      concatKDF_ok params h.contract (sharedSecret prv.PublicKey.Curve zx) s1,
      hbodyx, htagx, derivedKm, derivedKe] at hctc ⊢
    rw [if_neg hctc]

/-! The toy primitives satisfy the interface contracts. -/

theorem toyHashA_contract : HashContract toyHashA :=
  ⟨fun b => by simp [toyHashA, fillBytes_length]⟩

theorem toyHashB_contract : HashContract toyHashB :=
  ⟨fun b => by simp [toyHashB, fillBytes_length]⟩

theorem toyCipher_contract (p : ECIESParams) (hp : p.Cipher = toyCipher) : CipherContract p :=
  ⟨fun key _ => ⟨_, by rw [hp]; rfl, fun iv n => by simp⟩⟩

theorem toyParamsA_contract : ParamsContract toyParamsA where
  hash := toyHashA_contract
  cipher := toyCipher_contract toyParamsA rfl
  kdfFits := by decide
  repsSmall := by decide

theorem toyParamsB_contract : ParamsContract toyParamsB where
  hash := toyHashB_contract
  cipher := toyCipher_contract toyParamsB rfl
  kdfFits := by decide
  repsSmall := by decide

theorem toyRunA : EncryptRun toyPrvA toyParamsA toyRandA 5 5 5 4 [9, 8, 7, 6] where
  resolved := rfl
  genkey := rfl
  dhEnc := ⟨4, rfl⟩
  dhDec := ⟨4, rfl⟩
  zxFits := by decide
  randEnough := by decide
  marshalLen := by decide
  marshalHead := rfl
  unmarshal := rfl
  onCurve := by decide
  contract := toyParamsA_contract

theorem toyRunB : EncryptRun toyPrvB toyParamsB toyRandB 5 5 5 15
    [20, 21, 22, 23, 24, 25, 26, 27, 28, 29, 30, 31, 32, 33, 34, 35] where
  resolved := rfl
  genkey := rfl
  dhEnc := ⟨15, rfl⟩
  dhDec := ⟨15, rfl⟩
  zxFits := by decide
  randEnough := by decide
  marshalLen := by decide
  marshalHead := rfl
  unmarshal := by decide
  onCurve := by decide
  contract := toyParamsB_contract

/-- C1 (amended): round-trip correctness of the pipeline for every
plaintext of at least one byte: for every private key whose parameters
resolve and whose curve, hash and cipher primitives meet their interface
contracts (captured by EncryptRun), Decrypt applied to the output of
Encrypt with the matching key and shared infos succeeds and returns
exactly the plaintext.  The original claim ranged over every plaintext
including the empty one; the empty plaintext is refuted by the
counterexample (the guard on ecies.go line 242 fires and Encrypt returns
a nil ciphertext that Decrypt rejects). -/
theorem C1_roundtrip_nonempty (prv : PrivateKey) (params : ECIESParams) (rand : List Nat)
    (dR Rx Ry zx : Nat) (rand' : List Nat) (m s1 s2 : List Nat)
    (h : EncryptRun prv params rand dR Rx Ry zx rand') (hm : 1 ≤ m.length) :
    ∃ c, Encrypt rand prv.PublicKey m s1 s2 = .ok c ∧ Decrypt prv c s1 s2 = .ok m := by
  obtain ⟨ks, hks, hkslen, henc⟩ := Encrypt_shape prv params rand dR Rx Ry zx rand' m s1 s2 h hm
  set iv := rand'.take params.BlockSize with hivdef
  have hivlen : iv.length = params.BlockSize := by
    rw [hivdef, List.length_take]; have := h.randEnough; omega
  set w := xorKeyStream (ks iv m.length) m with hwdef
  have hxlen : w.length = m.length := by
    rw [hwdef]; simp [xorKeyStream, hkslen]
  refine ⟨_, henc, ?_⟩
  rw [Decrypt_frame prv params rand dR Rx Ry zx rand' s1 s2 (iv ++ w) _ h
      (by rw [List.length_append, hivlen, hxlen]; omega)
      (messageTag_length params.Hash h.contract.hash _ _ _)]
  rw [if_pos rfl]
  unfold symDecrypt
  simp only [hks]
  rw [if_neg (by rw [List.length_append, hivlen, hxlen]; omega)]
  have h1 : (iv ++ w).length - params.BlockSize = m.length := by
    rw [List.length_append, hivlen, hxlen]; omega
  rw [h1, ← hivlen, List.take_left, List.drop_left, hwdef]
  rw [show xorKeyStream (ks iv m.length) (xorKeyStream (ks iv m.length) m) = m from
    zipWith_xor_cancel _ m (hkslen iv m.length)]

/-- C1 counterexample: at the toy instantiation the empty message
encrypts, with no error, to the nil ciphertext (the guard of ecies.go
line 242), and decrypting it does not return the empty message: the
round-trip invariant fails for the empty plaintext. -/
theorem C1_counterexample :
    Encrypt toyRandA toyPrvA.PublicKey [] [] [] = .ok [] ∧
    Decrypt toyPrvA [] [] [] ≠ .ok ([] : List Nat) := by decide

/-- C1 witness: the amended round-trip at the toy instantiation with the
one-byte message [7]. -/
theorem C1_witness :
    ∃ c, Encrypt toyRandA toyPrvA.PublicKey [7] [] [] = .ok c ∧
      Decrypt toyPrvA c [] [] = .ok [7] :=
  C1_roundtrip_nonempty toyPrvA toyParamsA toyRandA 5 5 5 4 [9, 8, 7, 6] [7] [] []
    toyRunA (by decide)

/-- C3 (code bug): the empty message does not round-trip.  For the empty
message the symmetric ciphertext has length exactly BlockSize, so the
guard len(em) <= params.BlockSize on ecies.go line 242 fires and Encrypt
returns a nil ciphertext together with a nil error; Decrypt of the nil
ciphertext returns ErrInvalidMessage.  The spec demands that a length-0
message MUST encrypt and decrypt correctly, which the code violates (the
guard should be strict: len(em) < BlockSize can never hold, but equality
holds exactly for the empty message). -/
theorem C3_empty_message_bug :
    Encrypt toyRandA toyPrvA.PublicKey [] [] [] = .ok [] ∧
    Decrypt toyPrvA [] [] [] = .error .ErrInvalidMessage := by decide

/-- C4 (amended): ciphertext length formula for every plaintext of at
least one byte: the ciphertext Encrypt returns has length
point_len + BlockSize + len(m) + hash.Size with
point_len = 1 + 2 ceil(BitSize/8).  The original claim ranged over every
plaintext; for the empty plaintext Encrypt returns a nil ciphertext
(length 0) instead, refuted by the counterexample. -/
theorem C4_length_formula (prv : PrivateKey) (params : ECIESParams) (rand : List Nat)
    (dR Rx Ry zx : Nat) (rand' : List Nat) (m s1 s2 : List Nat)
    (h : EncryptRun prv params rand dR Rx Ry zx rand') (hm : 1 ≤ m.length) :
    ∃ c, Encrypt rand prv.PublicKey m s1 s2 = .ok c ∧
      c.length = (1 + 2 * ((prv.PublicKey.Curve.BitSize + 7) / 8)) + params.BlockSize
        + m.length + params.Hash.Size := by
  obtain ⟨ks, hks, hkslen, henc⟩ := Encrypt_shape prv params rand dR Rx Ry zx rand' m s1 s2 h hm
  refine ⟨_, henc, ?_⟩
  rw [List.length_append, List.length_append, List.length_append, h.marshalLen,
    messageTag_length params.Hash h.contract.hash, List.length_take]
  have h1 : (xorKeyStream (ks (rand'.take params.BlockSize) m.length) m).length = m.length := by
    simp [xorKeyStream, hkslen]
  rw [h1]
  have := h.randEnough
  omega

/-- C4 counterexample: at the toy instantiation with the size profile of
the P-256 suite (point length 65, BlockSize 16, hash size 32), the empty
plaintext yields the nil ciphertext of length 0, not the 113 bytes of
the formula. -/
theorem C4_counterexample :
    Encrypt toyRandB toyPrvB.PublicKey [] [] [] = .ok [] ∧
    ¬ (([] : List Nat).length
      = (1 + 2 * ((toyPrvB.PublicKey.Curve.BitSize + 7) / 8)) + toyParamsB.BlockSize
        + ([] : List Nat).length + toyParamsB.Hash.Size) := by decide

/-- C4 witness: the P-256 size profile with the 5-byte message "hello"
gives a 118-byte ciphertext: 65 + 16 + 5 + 32 = 118, the concrete
scenario of the spec. -/
theorem C4_witness :
    ∃ c, Encrypt toyRandB toyPrvB.PublicKey [104, 101, 108, 108, 111] [] [] = .ok c ∧
      c.length = 118 := by
  obtain ⟨c, hc, hlen⟩ := C4_length_formula toyPrvB toyParamsB toyRandB 5 5 5 15
    [20, 21, 22, 23, 24, 25, 26, 27, 28, 29, 30, 31, 32, 33, 34, 35]
    [104, 101, 108, 108, 111] [] [] toyRunB (by decide)
  exact ⟨c, hc, by rw [hlen]; decide⟩

/-- C5 (amended): KDF output length.  Whenever the repetition count does
not exceed 2^32 - 1 and additionally the loop produces at least kdLen
bytes, that is kdLen is at most (reps + 1) hash.Size -- which holds for
all supported profiles, where kdLen = 2 KeyLen -- concatKDF returns a
byte string of length exactly kdLen.  The original claim ranged over
every hash and every kdLen; when kdLen exceeds the bytes produced, the
final slice k[:kdLen] of ecies.go line 158 is out of range (a Go panic),
refuted by the counterexample. -/
theorem C5_kdf_length (h : HashFn) (hc : HashContract h) (z s1 : List Nat) (kdLen : Nat)
    (hreps : ((kdLen + 7) * 8) / (h.BlockSize * 8) ≤ 2 ^ 32 - 1)
    (hfit : kdLen ≤ (((kdLen + 7) * 8) / (h.BlockSize * 8) + 1) * h.Size) :
    ∃ k, concatKDF h z s1 kdLen = .ok k ∧ k.length = kdLen := by
  unfold concatKDF
  rw [if_neg (by omega), if_neg (by rw [kdfRounds_length h hc z s1]; omega)]
  refine ⟨_, rfl, ?_⟩
  rw [List.length_take, kdfRounds_length h hc z s1]
  omega

/-- C5 counterexample: with a hash of the SHA-256 size profile (Size 32,
BlockSize 64) and kdLen = 100, the repetition count is 1 (well below
2^32 - 1) but the loop produces only 64 bytes, so the final slice to 100
bytes is out of range: concatKDF does not return a 100-byte string. -/
theorem C5_counterexample :
    ((100 + 7) * 8) / (badKdfHash.BlockSize * 8) ≤ 2 ^ 32 - 1 ∧
    concatKDF badKdfHash [1] [] 100 = .error .sliceOutOfRange := by decide

/-- C5 witness: the amended statement at the toy hash with kdLen = 4. -/
theorem C5_witness :
    ∃ k, concatKDF toyHashA [1] [] 4 = .ok k ∧ k.length = 4 :=
  C5_kdf_length toyHashA toyHashA_contract [1] [] 4 (by decide) (by decide)

/-! Helper lemmas for single-byte alterations of a valid frame. -/

theorem Decrypt_altered_tag (prv : PrivateKey) (params : ECIESParams) (rand : List Nat)
    (dR Rx Ry zx : Nat) (rand' : List Nat) (s1 s2 em d : List Nat) (j b : Nat)
    (h : EncryptRun prv params rand dR Rx Ry zx rand')
    (hem1 : 1 ≤ em.length)
    (hd : d = messageTag params.Hash
      (derivedKm params (sharedSecret prv.PublicKey.Curve zx) s1) em s2)
    (hj : j < d.length) (hb : b ≠ d.getD j 0) :
    Decrypt prv (prv.PublicKey.Curve.Marshal Rx Ry ++ (em ++ d.set j b)) s1 s2
      = .error .ErrInvalidMessage := by
  have hne : d.set j b ≠ messageTag params.Hash
      (derivedKm params (sharedSecret prv.PublicKey.Curve zx) s1) em s2 := by
    rw [← hd]
    exact set_ne_self d j b 0 hj hb
  rw [Decrypt_frame prv params rand dR Rx Ry zx rand' s1 s2 em (d.set j b) h hem1
      (by rw [List.length_set, hd]; exact messageTag_length params.Hash h.contract.hash _ _ _),
    if_neg hne]

theorem Decrypt_altered_body (prv : PrivateKey) (params : ECIESParams) (rand : List Nat)
    (dR Rx Ry zx : Nat) (rand' : List Nat) (s1 s2 em d : List Nat) (j b : Nat)
    (h : EncryptRun prv params rand dR Rx Ry zx rand')
    (hem1 : 1 ≤ em.length)
    (hd : d = messageTag params.Hash
      (derivedKm params (sharedSecret prv.PublicKey.Curve zx) s1) em s2) :
    Decrypt prv (prv.PublicKey.Curve.Marshal Rx Ry ++ (em.set j b ++ d)) s1 s2
      = .error .ErrInvalidMessage ∨
      messageTag params.Hash (derivedKm params (sharedSecret prv.PublicKey.Curve zx) s1)
        (em.set j b) s2 = d := by
  by_cases hcol : messageTag params.Hash
      (derivedKm params (sharedSecret prv.PublicKey.Curve zx) s1) (em.set j b) s2 = d
  · exact Or.inr hcol
  · left
    rw [Decrypt_frame prv params rand dR Rx Ry zx rand' s1 s2 (em.set j b) d h
        (by rw [List.length_set]; exact hem1)
        (by rw [hd]; exact messageTag_length params.Hash h.contract.hash _ _ _),
      if_neg (fun hEq => hcol hEq.symm)]

/-- C2 (amended): single-byte alteration of a valid ciphertext.
Encrypt emits c = Rb ++ em ++ d (point, body, tag).  Altering any single
byte of the tag region makes Decrypt return the InvalidMessage error;
altering any single byte of the body region makes Decrypt return the
InvalidMessage error unless the HMAC tag of the altered body collides
with the carried tag (for the real HMAC such a collision is exactly what
the MAC's security excludes, which is a computational assumption, not a
consequence of the code).  The original claim ranged over every byte
position including the point prefix; altering the leading point byte
yields InvalidPublicKey instead, refuted by the counterexample. -/
theorem C2_byte_alteration (prv : PrivateKey) (params : ECIESParams) (rand : List Nat)
    (dR Rx Ry zx : Nat) (rand' : List Nat) (m s1 s2 : List Nat)
    (h : EncryptRun prv params rand dR Rx Ry zx rand') (hm : 1 ≤ m.length) :
    ∃ c Rb em d, Encrypt rand prv.PublicKey m s1 s2 = .ok c ∧
      c = Rb ++ (em ++ d) ∧
      Rb = prv.PublicKey.Curve.Marshal Rx Ry ∧
      d.length = params.Hash.Size ∧ 1 ≤ em.length ∧
      (∀ i b, Rb.length + em.length ≤ i → i < c.length → b ≠ c.getD i 0 →
        Decrypt prv (c.set i b) s1 s2 = .error .ErrInvalidMessage) ∧
      (∀ i b, Rb.length ≤ i → i < Rb.length + em.length → b ≠ c.getD i 0 →
        Decrypt prv (c.set i b) s1 s2 = .error .ErrInvalidMessage ∨
          messageTag params.Hash (derivedKm params (sharedSecret prv.PublicKey.Curve zx) s1)
            (em.set (i - Rb.length) b) s2 = d) := by
  obtain ⟨ks, hks, hkslen, henc⟩ := Encrypt_shape prv params rand dR Rx Ry zx rand' m s1 s2 h hm
  have hemlen : (rand'.take params.BlockSize ++
      xorKeyStream (ks (rand'.take params.BlockSize) m.length) m).length
      = params.BlockSize + m.length := by
    have := h.randEnough
    simp only [List.length_append, List.length_take, xorKeyStream, List.length_zipWith, hkslen]
    omega
  refine ⟨_, _, _, _, henc, rfl, rfl,
    messageTag_length params.Hash h.contract.hash _ _ _, by rw [hemlen]; omega, ?_, ?_⟩
  · intro i b hge hlt hb
    rw [List.length_append, List.length_append] at hlt
    rw [List.set_append_right _ _ (le_trans (Nat.le_add_right _ _) hge),
      List.set_append_right _ _ (by omega)]
    rw [List.getD_append_right _ _ _ _ (le_trans (Nat.le_add_right _ _) hge),
      List.getD_append_right _ _ _ _ (by omega)] at hb
    exact Decrypt_altered_tag prv params rand dR Rx Ry zx rand' s1 s2 _ _ _ b h
      (by rw [hemlen]; omega) rfl (by omega) hb
  · intro i b hge hlt hb
    rw [List.set_append_right _ _ hge, List.set_append_left _ _ (by omega)]
    exact Decrypt_altered_body prv params rand dR Rx Ry zx rand' s1 s2 _ _ _ b h
      (by rw [hemlen]; omega) rfl

/-- C2 counterexample: altering the first byte of a valid ciphertext (the
leading point-format byte 4, changed to 0) makes Decrypt return
InvalidPublicKey, not the InvalidMessage error the claim demands for
every byte position. -/
theorem C2_counterexample :
    Encrypt toyRandA toyPrvA.PublicKey [7] [] [] = .ok [4, 5, 5, 9, 8, 11, 94, 102] ∧
    Decrypt toyPrvA ([4, 5, 5, 9, 8, 11, 94, 102].set 0 0) [] []
      = .error .ErrInvalidPublicKey ∧
    Decrypt toyPrvA ([4, 5, 5, 9, 8, 11, 94, 102].set 0 0) [] []
      ≠ .error .ErrInvalidMessage := by decide

/-- C2 witness: the amended theorem at the toy run. -/
theorem C2_witness :
    ∃ c Rb em d, Encrypt toyRandA toyPrvA.PublicKey [7] [] [] = .ok c ∧
      c = Rb ++ (em ++ d) ∧
      Rb = toyPrvA.PublicKey.Curve.Marshal 5 5 ∧
      d.length = toyParamsA.Hash.Size ∧ 1 ≤ em.length ∧
      (∀ i b, Rb.length + em.length ≤ i → i < c.length → b ≠ c.getD i 0 →
        Decrypt toyPrvA (c.set i b) [] [] = .error .ErrInvalidMessage) ∧
      (∀ i b, Rb.length ≤ i → i < Rb.length + em.length → b ≠ c.getD i 0 →
        Decrypt toyPrvA (c.set i b) [] [] = .error .ErrInvalidMessage ∨
          messageTag toyParamsA.Hash
            (derivedKm toyParamsA (sharedSecret toyPrvA.PublicKey.Curve 4) [])
            (em.set (i - Rb.length) b) [] = d) :=
  C2_byte_alteration toyPrvA toyParamsA toyRandA 5 5 5 4 [9, 8, 7, 6] [7] [] []
    toyRunA (by decide)

/-- C6 (confirmed): ECDH symmetry and fixed width.  For two key pairs on
the same curve (each public point the scalar multiple of the generator
by the private scalar) whose scalar multiplication satisfies the
commutation law of an elliptic-curve group, GenerateShared gives the
same result in both directions, namely the x-coordinate of the scalar
product left-padded with zeros to exactly ceil(BitSize/8) bytes. -/
theorem C6_ecdh_symmetry (Cv : Curve) (A B : PrivateKey) (Gx Gy x y : Nat)
    (hA : A.PublicKey.Curve = Cv) (hB : B.PublicKey.Curve = Cv)
    (hAkey : Cv.ScalarMult Gx Gy A.D = some (A.PublicKey.X, A.PublicKey.Y))
    (hBkey : Cv.ScalarMult Gx Gy B.D = some (B.PublicKey.X, B.PublicKey.Y))
    (hcomm : ∀ dd dd' P Q, Cv.ScalarMult Gx Gy dd = some P →
      Cv.ScalarMult Gx Gy dd' = some Q →
      Cv.ScalarMult P.1 P.2 dd' = Cv.ScalarMult Q.1 Q.2 dd)
    (hxy : Cv.ScalarMult B.PublicKey.X B.PublicKey.Y A.D = some (x, y))
    (hfit : x < 256 ^ ((Cv.BitSize + 7) / 8)) :
    GenerateShared A B.PublicKey = GenerateShared B A.PublicKey ∧
    GenerateShared A B.PublicKey = .ok (fillBytes x ((Cv.BitSize + 7) / 8)) ∧
    (fillBytes x ((Cv.BitSize + 7) / 8)).length = (Cv.BitSize + 7) / 8 := by
  have hswap : Cv.ScalarMult A.PublicKey.X A.PublicKey.Y B.D = some (x, y) :=
    (hcomm A.D B.D (A.PublicKey.X, A.PublicKey.Y) (B.PublicKey.X, B.PublicKey.Y)
      hAkey hBkey).trans hxy
  have h1 : GenerateShared A B.PublicKey = .ok (sharedSecret B.PublicKey.Curve x) :=
    GenerateShared_eq A B.PublicKey x y (by rw [hA, hB])
      (by rw [hB]; exact hxy) (by rw [hB]; exact hfit)
  have h2 : GenerateShared B A.PublicKey = .ok (sharedSecret A.PublicKey.Curve x) :=
    GenerateShared_eq B A.PublicKey x y (by rw [hA, hB])
      (by rw [hA]; exact hswap) (by rw [hA]; exact hfit)
  rw [hB] at h1
  rw [hA] at h2
  simp only [sharedSecret] at h1 h2
  exact ⟨h1.trans h2.symm, h1, fillBytes_length _ _⟩

/-- Commutation law of the toy curve: the scalar action by modular
multiplication commutes through the generator (1, 1). -/
theorem toyCurveA_comm (dd dd' : Nat) (P Q : Nat × Nat)
    (hP : toyCurveA.ScalarMult 1 1 dd = some P)
    (hQ : toyCurveA.ScalarMult 1 1 dd' = some Q) :
    toyCurveA.ScalarMult P.1 P.2 dd' = toyCurveA.ScalarMult Q.1 Q.2 dd := by
  simp only [toyCurveA] at hP hQ ⊢
  have hP' := Option.some.inj hP
  have hQ' := Option.some.inj hQ
  rw [← hP', ← hQ']
  have key : ∀ a c : Nat, a * (c % 11) % 11 = a * c % 11 := fun a c => by
    rw [Nat.mul_mod, Nat.mod_mod, ← Nat.mul_mod]
  simp only [Nat.mul_one, key, Nat.mul_comm]

/-- C6 witness: the two toy key pairs D = 3 and D = 4 on the toy curve
agree on the shared secret [1] of width 1. -/
theorem C6_witness :
    GenerateShared toyPrvA toyPrvA2.PublicKey = GenerateShared toyPrvA2 toyPrvA.PublicKey ∧
    GenerateShared toyPrvA toyPrvA2.PublicKey
      = .ok (fillBytes 1 ((toyCurveA.BitSize + 7) / 8)) ∧
    (fillBytes 1 ((toyCurveA.BitSize + 7) / 8)).length = (toyCurveA.BitSize + 7) / 8 :=
  C6_ecdh_symmetry toyCurveA toyPrvA toyPrvA2 1 1 1 1 rfl rfl rfl rfl
    toyCurveA_comm rfl (by decide)

/-- C7 (amended): leading-byte rejection.  For every key whose ECIES
parameters resolve, a non-empty ciphertext whose first byte is not 2, 3
or 4 makes Decrypt return the InvalidPublicKey error; the empty
ciphertext always yields the InvalidMessage error.  The original claim
asserted the first part regardless of the key; a key whose parameters do
not resolve yields ErrUnsupportedECIESParameters before the leading byte
is inspected, refuted by the counterexample. -/
theorem C7_leading_byte (prv : PrivateKey) (c s1 s2 : List Nat) (b : Nat) :
    (∀ params, resolveParams prv.PublicKey = some params →
      c.head? = some b → b ≠ 2 → b ≠ 3 → b ≠ 4 →
      Decrypt prv c s1 s2 = .error .ErrInvalidPublicKey) ∧
    Decrypt prv [] s1 s2 = .error .ErrInvalidMessage := by
  constructor
  · intro params hres hhead h2 h3 h4
    have hlen : ¬ (c.length = 0) := by
      cases c with
      | nil => simp at hhead
      | cons a t => simp
    have hms : decryptMStart prv.PublicKey c = none := by
      unfold decryptMStart
      rw [hhead]
      show (if b = 2 ∨ b = 3 then some (1 + (prv.PublicKey.Curve.BitSize + 7) / 8)
        else if b = 4 then some (1 + 2 * ((prv.PublicKey.Curve.BitSize + 7) / 8))
        else none) = none
      rw [if_neg (fun hor => hor.elim h2 h3), if_neg h4]
    simp only [Decrypt, hlen, if_false, hres, hms]
  · simp [Decrypt]

/-- C7 counterexample: a key with no bound parameters on a curve with no
default makes Decrypt of the ciphertext [5] fail with
ErrUnsupportedECIESParameters, not InvalidPublicKey: the leading-byte
behavior does depend on the key. -/
theorem C7_counterexample :
    Decrypt toyPrvNoParams [5] [] [] = .error .ErrUnsupportedECIESParameters ∧
    Decrypt toyPrvNoParams [5] [] [] ≠ .error .ErrInvalidPublicKey := by decide

/-- C7 witness: the amended theorem at the toy key with bound parameters
and the ciphertext [5]. -/
theorem C7_witness :
    Decrypt toyPrvA [5] [] [] = .error .ErrInvalidPublicKey ∧
    Decrypt toyPrvA [] [] [] = .error .ErrInvalidMessage := by
  obtain ⟨h1, h2⟩ := C7_leading_byte toyPrvA [5] [] [] 5
  exact ⟨h1 toyParamsA rfl rfl (by decide) (by decide) (by decide), h2⟩

/-! Error-range facts used by the totality analysis of Decrypt. -/

theorem GenerateShared_no_sym (prv : PrivateKey) (pub : PublicKey) :
    GenerateShared prv pub ≠ .error .symOutOfRange := by
  intro hcon
  unfold GenerateShared at hcon
  split at hcon
  · simp at hcon
  · split at hcon
    · simp at hcon
    · split at hcon <;> simp at hcon

theorem concatKDF_no_sym (h : HashFn) (z s1 : List Nat) (kdLen : Nat) :
    concatKDF h z s1 kdLen ≠ .error .symOutOfRange := by
  intro hcon
  unfold concatKDF at hcon
  split at hcon
  · simp at hcon
  · split at hcon <;> simp at hcon

/-- C10 (amended): totality of Decrypt.  Decrypt always returns a
plaintext or an error, and the only out-of-domain operation it can reach
is the IV split of symDecrypt (the Go panic modelled by symOutOfRange):
whenever it does, the ciphertext passed the structural length check yet
its body -- of at least 1 byte, which is all the check guarantees -- is
shorter than BlockSize, so the ciphertext length lies strictly between
mStart + hash.Size and mStart + hash.Size + BlockSize.  The original
claim asserted that the structural check guarantees a body of at least
BlockSize bytes; a ciphertext with a shorter body and a valid tag
reaches the out-of-range split, refuted by the counterexample. -/
theorem C10_decrypt_totality (prv : PrivateKey) (params : ECIESParams) (c s1 s2 : List Nat)
    (hres : resolveParams prv.PublicKey = some params)
    (hcip : ∀ key, params.Cipher key ≠ .error .symOutOfRange) :
    Decrypt prv c s1 s2 = .error .symOutOfRange →
      ∃ mStart, decryptMStart prv.PublicKey c = some mStart ∧
        mStart + params.Hash.Size + 1 ≤ c.length ∧
        c.length < mStart + params.Hash.Size + params.BlockSize := by
  intro hd
  simp only [Decrypt, hres] at hd
  split at hd
  · simp at hd
  rename_i hlen0
  split at hd
  · simp at hd
  rename_i mStart hms
  split at hd
  · simp at hd
  rename_i hstruct
  split at hd
  · simp at hd
  rename_i Rx Ry hun
  split at hd
  case isFalse => simp at hd
  split at hd
  · rename_i e hgs
    have he : e = GoError.symOutOfRange := by simpa using hd
    exact absurd (he ▸ hgs) (GenerateShared_no_sym prv _)
  rename_i z hgs
  split at hd
  · rename_i e hke
    have he : e = GoError.symOutOfRange := by simpa using hd
    exact absurd (he ▸ hke) (concatKDF_no_sym params.Hash _ s1 _)
  rename_i K hkdf
  split at hd
  case isFalse => simp at hd
  unfold symDecrypt at hd
  split at hd
  · rename_i e hcipEq
    have he : e = GoError.symOutOfRange := by simpa using hd
    exact absurd (he ▸ hcipEq) (hcip _)
  split at hd
  · rename_i hshort
    refine ⟨mStart, hms, by omega, ?_⟩
    rw [List.length_drop, List.length_take] at hshort
    omega
  · simp at hd

/-- C10 counterexample: the ciphertext [4, 5, 5, 1, 174, 240] passes the
structural length check (length 6 is at least mStart + hash.Size + 1 =
3 + 2 + 1) and its tag verifies, yet its body is a single byte, shorter
than BlockSize = 2: Decrypt reaches the out-of-range IV split of
symDecrypt (a Go panic). -/
theorem C10_counterexample :
    decryptMStart toyPrvA.PublicKey [4, 5, 5, 1, 174, 240] = some 3 ∧
    ¬ ([4, 5, 5, 1, 174, 240].length < 3 + toyParamsA.Hash.Size + 1) ∧
    Decrypt toyPrvA [4, 5, 5, 1, 174, 240] [] [] = .error .symOutOfRange := by decide

/-- C10 witness: the amended theorem applied at the panicking input. -/
theorem C10_witness :
    ∃ mStart, decryptMStart toyPrvA.PublicKey [4, 5, 5, 1, 174, 240] = some mStart ∧
      mStart + toyParamsA.Hash.Size + 1 ≤ [4, 5, 5, 1, 174, 240].length ∧
      [4, 5, 5, 1, 174, 240].length < mStart + toyParamsA.Hash.Size + toyParamsA.BlockSize :=
  C10_decrypt_totality toyPrvA toyParamsA [4, 5, 5, 1, 174, 240] [] [] rfl
    (fun key => by simp [toyParamsA, toyCipher]) (by decide)

/-! Round-trip facts about the concrete witness codec. -/

theorem decL_encL (l r : List Nat) : decL (encL l ++ r) = some (l, r) := by
  simp only [encL, List.cons_append, decL]
  rw [if_pos (by simp), List.take_left, List.drop_left]

theorem decL_encL_nil (l : List Nat) : decL (encL l) = some (l, []) := by
  have := decL_encL l []
  rwa [List.append_nil] at this

theorem decodeSPKI_encodeSPKI (s : asnSubjectPublicKeyInfo) :
    decodeSPKI (encodeSPKI s) = .ok s := by
  unfold encodeSPKI decodeSPKI
  simp only [List.append_assoc, List.cons_append, decL_encL, decL_encL_nil]

theorem decodePRIV_encodePRIV (s : asnPrivateKey) :
    decodePRIV (encodePRIV s) = .ok s := by
  unfold encodePRIV decodePRIV
  simp only [List.append_assoc, List.cons_append, decL_encL, decL_encL_nil]

theorem decodePEM_encodePEM (b : List Nat) :
    decodePEM (encodePEM "ELLIPTIC CURVE PUBLIC KEY" b)
      = some ("ELLIPTIC CURVE PUBLIC KEY", b) := by
  simp [encodePEM, decodePEM]

/-- C8 (confirmed): key serialization round-trip.  For every key on one
of the four named curves, assuming only the round-trip contracts of the
external DER and PEM codecs and of the curve's point codec at the key's
point: UnmarshalPublic inverts MarshalPublic up to curve, X and Y;
UnmarshalPrivate inverts MarshalPrivate up to curve, X, Y and D; and
ImportPublicPEM inverts ExportPublicPEM up to X and Y. -/
theorem C8_key_serialization (cod : ASN1Codec) (prv : PrivateKey)
    (hspki : ∀ s, cod.unmarshalSPKI (cod.marshalSPKI s) = .ok s)
    (hpriv : ∀ s, cod.unmarshalPriv (cod.marshalPriv s) = .ok s)
    (hpem : ∀ b, cod.pemDecode (cod.pemEncode "ELLIPTIC CURVE PUBLIC KEY" b)
      = some ("ELLIPTIC CURVE PUBLIC KEY", b))
    (hcurve : prv.PublicKey.Curve = P224 ∨ prv.PublicKey.Curve = P256 ∨
      prv.PublicKey.Curve = P384 ∨ prv.PublicKey.Curve = P521)
    (hpoint : prv.PublicKey.Curve.Unmarshal
        (prv.PublicKey.Curve.Marshal prv.PublicKey.X prv.PublicKey.Y)
      = some (prv.PublicKey.X, prv.PublicKey.Y)) :
    (∃ der pub, MarshalPublic cod prv.PublicKey = .ok der ∧
      UnmarshalPublic cod der = .ok pub ∧
      pub.Curve = prv.PublicKey.Curve ∧ pub.X = prv.PublicKey.X ∧ pub.Y = prv.PublicKey.Y) ∧
    (∃ der prv2, MarshalPrivate cod prv = .ok der ∧
      UnmarshalPrivate cod der = .ok prv2 ∧
      prv2.PublicKey.Curve = prv.PublicKey.Curve ∧ prv2.PublicKey.X = prv.PublicKey.X ∧
      prv2.PublicKey.Y = prv.PublicKey.Y ∧ prv2.D = prv.D) ∧
    (∃ pm pub, ExportPublicPEM cod prv.PublicKey = .ok pm ∧
      ImportPublicPEM cod pm = .ok pub ∧
      pub.X = prv.PublicKey.X ∧ pub.Y = prv.PublicKey.Y) := by
  obtain ⟨oid, hoid, hback⟩ : ∃ oid, oidFromNamedCurve prv.PublicKey.Curve = some oid ∧
      namedCurveFromOID oid = some prv.PublicKey.Curve := by
    rcases hcurve with hc | hc | hc | hc <;> rw [hc] <;> exact ⟨_, rfl, rfl⟩
  obtain ⟨subj, hsubj, halg, hdom, hbytes⟩ : ∃ subj,
      marshalSubjectPublicKeyInfo prv.PublicKey = .ok subj ∧
      subj.Algorithm = idEcPublicKeySupplemented ∧
      subj.Supplements.ECDomain = oid ∧
      subj.PublicKey.Bytes
        = prv.PublicKey.Curve.Marshal prv.PublicKey.X prv.PublicKey.Y := by
    unfold marshalSubjectPublicKeyInfo
    rw [hoid]
    exact ⟨_, rfl, rfl, rfl, rfl⟩
  have hMarshal : MarshalPublic cod prv.PublicKey = .ok (cod.marshalSPKI subj) := by
    simp only [MarshalPublic, hsubj]
  have hne : ¬ (subj.Algorithm ≠ idEcPublicKeySupplemented) := by
    rw [halg]
    exact fun hch => hch rfl
  have hU : UnmarshalPublic cod (cod.marshalSPKI subj) = .ok
      { X := prv.PublicKey.X, Y := prv.PublicKey.Y, Curve := prv.PublicKey.Curve,
        Params := some (asnECDHtoParams subj.Supplements.ECCAlgorithms.ECDH
          (asnECIEStoParams subj.Supplements.ECCAlgorithms.ECIES zeroECIESParams)) } := by
    simp only [UnmarshalPublic, hspki, hne, if_false, hdom, hback, hbytes, hpoint]
  refine ⟨⟨_, _, hMarshal, hU, rfl, rfl, rfl⟩, ?_, ?_⟩
  · have hMp : MarshalPrivate cod prv = .ok (cod.marshalPriv
        { Version := 1, Private := natToBytes prv.D, Curve := oid,
          Public := { BitLength := (cod.marshalSPKI subj).length * 8,
                      Bytes := cod.marshalSPKI subj } }) := by
      simp only [MarshalPrivate, marshalPrivateKey, hoid, hMarshal]
    have hUp : UnmarshalPrivate cod (cod.marshalPriv
        { Version := 1, Private := natToBytes prv.D, Curve := oid,
          Public := { BitLength := (cod.marshalSPKI subj).length * 8,
                      Bytes := cod.marshalSPKI subj } }) = .ok
        ⟨⟨prv.PublicKey.X, prv.PublicKey.Y, prv.PublicKey.Curve,
          some (asnECDHtoParams subj.Supplements.ECCAlgorithms.ECDH
            (asnECIEStoParams subj.Supplements.ECCAlgorithms.ECIES zeroECIESParams))⟩,
          bytesToNat (natToBytes prv.D)⟩ := by
      simp only [UnmarshalPrivate, hpriv, hback, hU]
      rw [if_neg (by simp)]
    exact ⟨_, _, hMp, hUp, rfl, rfl, rfl, bytesToNat_natToBytes prv.D⟩
  · have hExp : ExportPublicPEM cod prv.PublicKey
        = .ok (cod.pemEncode "ELLIPTIC CURVE PUBLIC KEY" (cod.marshalSPKI subj)) := by
      simp only [ExportPublicPEM, hMarshal]
    have hImp : ImportPublicPEM cod
        (cod.pemEncode "ELLIPTIC CURVE PUBLIC KEY" (cod.marshalSPKI subj)) = .ok
        { X := prv.PublicKey.X, Y := prv.PublicKey.Y, Curve := prv.PublicKey.Curve,
          Params := some (asnECDHtoParams subj.Supplements.ECCAlgorithms.ECDH
            (asnECIEStoParams subj.Supplements.ECCAlgorithms.ECIES zeroECIESParams)) } := by
      simp only [ImportPublicPEM, hpem, hU]
      rw [if_neg (by simp)]
    exact ⟨_, _, hExp, hImp, rfl, rfl⟩

/-- C8 witness: the theorem at the concrete witness codec and the P-256
base point with scalar 1. -/
theorem C8_witness :
    (∃ der pub, MarshalPublic toyCodec p256WitnessKey.PublicKey = .ok der ∧
      UnmarshalPublic toyCodec der = .ok pub ∧
      pub.Curve = p256WitnessKey.PublicKey.Curve ∧
      pub.X = p256WitnessKey.PublicKey.X ∧ pub.Y = p256WitnessKey.PublicKey.Y) ∧
    (∃ der prv2, MarshalPrivate toyCodec p256WitnessKey = .ok der ∧
      UnmarshalPrivate toyCodec der = .ok prv2 ∧
      prv2.PublicKey.Curve = p256WitnessKey.PublicKey.Curve ∧
      prv2.PublicKey.X = p256WitnessKey.PublicKey.X ∧
      prv2.PublicKey.Y = p256WitnessKey.PublicKey.Y ∧ prv2.D = p256WitnessKey.D) ∧
    (∃ pm pub, ExportPublicPEM toyCodec p256WitnessKey.PublicKey = .ok pm ∧
      ImportPublicPEM toyCodec pm = .ok pub ∧
      pub.X = p256WitnessKey.PublicKey.X ∧ pub.Y = p256WitnessKey.PublicKey.Y) :=
  C8_key_serialization toyCodec p256WitnessKey
    decodeSPKI_encodeSPKI decodePRIV_encodePRIV decodePEM_encodePEM
    (Or.inr (Or.inl rfl)) (by decide)

end ECIES
